import Mathlib

/-!
# fenced: reactor table, client protocol handler and debug ring buffer

A shallow embedding of `fence/fenced/main.c`.

* C globals are the fields of `Daemon`; every function takes the state and
  returns the new one.
* `char` values are natural numbers, C `int` values are integers, sizes and
  array indices are natural numbers.
* Constants, type sizes, the header layout and the procedures of the
  membership back end, which come from outside `main.c`, are the fields of
  `Env`.
* `read(2)` and `write(2)` are scripts of kernel answers consumed one per call.
* A result `none` stands for a run that does not complete in the model: the
  script of answers ran out, or the code left defined behaviour.
* Diagnostics (`log_debug`, `log_error`) are not part of the embedding.
-/

namespace Fenced

/-- A C `char`, as its numeric value. -/
abbrev Byte := Nat

/-- The growth chunk of the reactor table: `#define CLIENT_NALLOC 32`. -/
def CLIENT_NALLOC : Nat := 32

/-- The `POLLIN` event bit of `<poll.h>`. -/
def POLLIN : Int := 1

/-- The functions that `main.c` stores in `workfn` and `deadfn`. -/
inductive Callback where
  | client_dead
  | cluster_dead
  | process_connection
  | process_listener
  | process_cman
  | process_groupd
  deriving DecidableEq

/-- The record `struct client`; a null function pointer is `none`. -/
structure Client where
  fd : Int
  workfn : Option Callback
  deadfn : Option Callback
  deriving DecidableEq

/-- The fields of `struct pollfd`. -/
structure Pollfd where
  fd : Int
  events : Int
  revents : Int
  deriving DecidableEq

/-- The record `struct fd` (a fencing domain), reduced to the field that
`main.c` reads: its name. -/
structure Domain where
  name : List Byte
  deriving DecidableEq

/-- The global variables of `main.c`. A null `client` or `pollfd` pointer is
`none`; an allocated table is the list of its entries. -/
structure Daemon where
  client_maxi : Int
  client_size : Nat
  client : Option (List Client)
  pollfd : Option (List Pollfd)
  dump_buf : List Byte
  dump_point : Nat
  dump_wrap : Int
  daemon_debug_buf : List Byte
  group_mode : Int
  domains : List Domain
  deriving DecidableEq

/-- Contents of a `struct client` in memory that was allocated and not yet
written. The value is a placeholder: every field read by the code is written
first. -/
def fresh_client : Client := ⟨0, none, none⟩

/-- Contents of a `struct pollfd` in memory that was allocated and not yet
written. -/
def fresh_pollfd : Pollfd := ⟨0, 0, 0⟩

/-- The loop `for (i = lo; i < lo + n; i++) body`. -/
def for_range {σ : Type} : Nat → Nat → (Nat → σ → σ) → σ → σ
  | 0, _, _, s => s
  | n + 1, lo, body, s => for_range n (lo + 1) body (body lo s)

/-- The function `realloc(old, n * sizeof entry)`: the old entries are kept,
the block has `n` entries, the new ones are unwritten. A null `old` makes it a
`malloc`. -/
def realloc_table {α : Type} (junk : α) (old : Option (List α)) (n : Nat) : List α :=
  ((old.getD []) ++ List.replicate n junk).take n

/-- The function `client_alloc`: allocate or grow both tables by
`CLIENT_NALLOC` entries and mark the new entries free. -/
def client_alloc (st : Daemon) : Daemon :=
  let tables : List Client × List Pollfd :=
    match st.client with
    | none =>
      (realloc_table fresh_client none CLIENT_NALLOC,
       realloc_table fresh_pollfd none CLIENT_NALLOC)
    | some c =>
      (realloc_table fresh_client (some c) (st.client_size + CLIENT_NALLOC),
       realloc_table fresh_pollfd st.pollfd (st.client_size + CLIENT_NALLOC))
  let tables := for_range CLIENT_NALLOC st.client_size
    (fun i t =>
      (t.1.set i { fd := -1, workfn := none, deadfn := none },
       t.2.set i { (t.2.getD i fresh_pollfd) with fd := -1, revents := 0 }))
    tables
  { st with
    client := some tables.1
    pollfd := some tables.2
    client_size := st.client_size + CLIENT_NALLOC }

/-- The scan `for (i = lo; i < lo + n; i++) if (client[i].fd == -1)` of
`client_add`: the first free slot, if any. -/
def scan_free (client : List Client) : Nat → Nat → Option Nat
  | 0, _ => none
  | n + 1, lo =>
    if (client.getD lo fresh_client).fd = -1 then some lo
    else scan_free client n (lo + 1)

/-- The value that `client_add` stores in `deadfn`: the argument, or
`client_dead` when the argument is null. -/
def deadfn_or_default (deadfn : Option Callback) : Option Callback :=
  match deadfn with
  | some d => some d
  | none => some Callback.client_dead

/-- The body of `client_add` from the label `again`: scan for a free slot and
fill it, or grow the table and scan again. `fuel` bounds the number of
passes. -/
def client_add_again (fd : Int) (workfn deadfn : Option Callback) :
    Nat → Daemon → Option (Nat × Daemon)
  | 0, _ => none
  | fuel + 1, st =>
    match scan_free (st.client.getD []) st.client_size 0 with
    | some i =>
      some (i,
        { st with
          client := st.client.map (fun c =>
            c.set i
              { workfn := workfn
                deadfn := deadfn_or_default deadfn
                fd := fd })
          pollfd := st.pollfd.map (fun p =>
            p.set i { (p.getD i fresh_pollfd) with fd := fd, events := POLLIN })
          client_maxi := if (i : Int) > st.client_maxi then (i : Int) else st.client_maxi })
    | none => client_add_again fd workfn deadfn fuel (client_alloc st)

/-- The function `client_add`; `none` when `fuel` passes did not find a
slot. -/
def client_add (fuel : Nat) (st : Daemon) (fd : Int) (workfn deadfn : Option Callback) :
    Option (Nat × Daemon) :=
  client_add_again fd workfn deadfn fuel
    (if st.client.isNone then client_alloc st else st)

/-- One call of `client_add`: its three arguments. -/
structure Registration where
  fd : Int
  workfn : Option Callback
  deadfn : Option Callback
  deriving DecidableEq

/-- Consecutive `client_add` calls, with the ids they return in call order. -/
def client_add_all (fuel : Nat) : List Registration → Daemon → Option (List Nat × Daemon)
  | [], st => some ([], st)
  | r :: rs, st =>
    match client_add fuel st r.fd r.workfn r.deadfn with
    | none => none
    | some (i, st1) =>
      match client_add_all fuel rs st1 with
      | none => none
      | some (ids, st2) => some (i :: ids, st2)

/-- The reactor before the first registration: both table pointers null,
`client_size` and `client_maxi` zero, and the other globals as given. -/
def initial_daemon (dump_size : Nat) : Daemon :=
  { client_maxi := 0
    client_size := 0
    client := none
    pollfd := none
    dump_buf := List.replicate dump_size 0
    dump_point := 0
    dump_wrap := 0
    daemon_debug_buf := List.replicate 256 0
    group_mode := 0
    domains := [] }

/-! ## Debug ring buffer -/

/-- The function `strlen`: the number of chars before the first NUL. -/
def strlen (s : List Byte) : Nat := (s.takeWhile (fun c => c ≠ 0)).length

/-- The body of the loop of `daemon_dump_save`, for `DUMP_SIZE = dump_size`:
store the char `c` at the cursor, advance, and wrap at the end of the
buffer. -/
def dump_put (dump_size : Nat) (s : Daemon) (c : Byte) : Daemon :=
  let s1 : Daemon :=
    { s with
      dump_buf := s.dump_buf.set s.dump_point c
      dump_point := s.dump_point + 1 }
  if s1.dump_point = dump_size then { s1 with dump_point := 0, dump_wrap := 1 }
  else s1

/-- The function `daemon_dump_save`: copy the string in `daemon_debug_buf`
into the ring, one char at a time. -/
def daemon_dump_save (dump_size : Nat) (st : Daemon) : Daemon :=
  let len := strlen st.daemon_debug_buf
  for_range len 0 (fun i s => dump_put dump_size s (s.daemon_debug_buf.getD i 0)) st

/-- One append to the log: the caller leaves the string `msg` in
`daemon_debug_buf` and calls `daemon_dump_save`. -/
def dump_append (dump_size : Nat) (st : Daemon) (msg : List Byte) : Daemon :=
  daemon_dump_save dump_size { st with daemon_debug_buf := msg }

/-- A sequence of appends, oldest first. -/
def dump_appends (dump_size : Nat) (st : Daemon) (msgs : List (List Byte)) : Daemon :=
  msgs.foldl (dump_append dump_size) st

/-- The chars that one append logs: the string in the buffer, up to its NUL. -/
def logged (msg : List Byte) : List Byte := msg.take (strlen msg)

/-- All chars logged by a sequence of appends, oldest first. -/
def logged_all (msgs : List (List Byte)) : List Byte := (msgs.map logged).flatten

/-- The ring buffer holds the logged chars `bs`: the cursor is their count
modulo the capacity `D`, the wrap flag says whether they filled the buffer,
and each of the last `D` of them sits at its index modulo `D`. -/
def ring_inv (D : Nat) (bs : List Byte) (st : Daemon) : Prop :=
  st.dump_buf.length = D ∧ st.dump_point = bs.length % D ∧
  (st.dump_wrap = 0 ∨ st.dump_wrap = 1) ∧ (st.dump_wrap = 1 ↔ D ≤ bs.length) ∧
  ∀ k, k < bs.length → bs.length ≤ k + D → st.dump_buf[k % D]? = bs[k]?

/-! ## Exact-count reads and writes -/

/-- What the kernel answers to one `write(2)` call: interrupted (`-1`,
`EINTR`), failed (`-1`, another errno), or room for `k` bytes, of which the
call takes at most the requested count. -/
inductive WriteAnswer where
  | eintr
  | error (errno : Int)
  | accepted (k : Nat)
  deriving DecidableEq

/-- One `write(fd, buf + off, count)` call of `do_write`: its arguments, the
value it returned, whether errno was `EINTR`, and the bytes it sent. -/
structure WriteCall where
  off : Nat
  count : Nat
  rv : Int
  eintr : Bool
  sent : List Byte
  deriving DecidableEq

/-- A run of `do_write`: the value returned (`none` when the script of
answers ran out first), the `write` calls issued, the answers left. -/
structure WriteRun where
  result : Option Int
  calls : List WriteCall
  rest : List WriteAnswer
  deriving DecidableEq

/-- The body of `do_write` from the label `retry`, with the current `off`
and `count`. -/
def do_write_retry (buf : List Byte) : List WriteAnswer → Nat → Nat → WriteRun
  | [], _, _ => ⟨none, [], []⟩
  | WriteAnswer.eintr :: script, off, count =>
    let r := do_write_retry buf script off count
    { r with calls := ⟨off, count, -1, true, []⟩ :: r.calls }
  | WriteAnswer.error _ :: script, off, count =>
    ⟨some (-1), [⟨off, count, -1, false, []⟩], script⟩
  | WriteAnswer.accepted k :: script, off, count =>
    let rv := min k count
    let call : WriteCall := ⟨off, count, rv, false, (buf.drop off).take rv⟩
    if rv ≠ count then
      let r := do_write_retry buf script (off + rv) (count - rv)
      { r with calls := call :: r.calls }
    else ⟨some 0, [call], script⟩

/-- The function `do_write(fd, buf, count)` against a script of kernel
answers. The `int` variables `rv` and `off` hold values from 0 to `count`;
every call in `main.c` passes a `count` that was an `int`. -/
def do_write (script : List WriteAnswer) (buf : List Byte) (count : Nat) : WriteRun :=
  do_write_retry buf script 0 count

/-- What the kernel answers to one `read(2)` call: interrupted, failed with
another errno, or the bytes it has ready, of which the call takes at most the
requested count (no bytes ready: end of stream, the call returns 0). -/
inductive ReadAnswer where
  | eintr
  | error (errno : Int)
  | data (bytes : List Byte)
  deriving DecidableEq

/-- One `read(fd, buf + off, count - off)` call of `do_read`: the offset, the
count it asked for, the value returned, whether errno was `EINTR`, and the
bytes delivered. -/
structure ReadCall where
  off : Nat
  asked : Nat
  rv : Int
  eintr : Bool
  got : List Byte
  deriving DecidableEq

/-- A run of `do_read`: the value returned (`none` when the script ran out
first), the buffer afterwards, the `read` calls issued, the answers left. -/
structure ReadRun where
  result : Option Int
  buf : List Byte
  calls : List ReadCall
  rest : List ReadAnswer
  deriving DecidableEq

/-- The store of `bytes` at `buf + off`. -/
def store_at (buf : List Byte) (off : Nat) (bytes : List Byte) : List Byte :=
  buf.take off ++ bytes ++ buf.drop (off + bytes.length)

/-- The loop `while (off < count)` of `do_read`, with the current buffer and
`off`. -/
def do_read_loop (count : Nat) : List ReadAnswer → List Byte → Nat → ReadRun
  | [], buf, off =>
    if off < count then ⟨none, buf, [], []⟩ else ⟨some 0, buf, [], []⟩
  | a :: script, buf, off =>
    if off < count then
      match a with
      | ReadAnswer.eintr =>
        let r := do_read_loop count script buf off
        { r with calls := ⟨off, count - off, -1, true, []⟩ :: r.calls }
      | ReadAnswer.error _ =>
        ⟨some (-1), buf, [⟨off, count - off, -1, false, []⟩], script⟩
      | ReadAnswer.data bytes =>
        let got := bytes.take (count - off)
        let call : ReadCall := ⟨off, count - off, got.length, false, got⟩
        if got.length = 0 then ⟨some (-1), buf, [call], script⟩
        else
          let r := do_read_loop count script (store_at buf off got) (off + got.length)
          { r with calls := call :: r.calls }
    else ⟨some 0, buf, [], a :: script⟩

/-- The function `do_read(fd, buf, count)` against a script of kernel
answers. The `int` variables `rv` and `off` hold values from 0 to `count`;
every call in `main.c` passes a `count` that was an `int`. -/
def do_read (script : List ReadAnswer) (buf : List Byte) (count : Nat) : ReadRun :=
  do_read_loop count script buf 0

/-! ## Client protocol handler -/

/-- Modelled from the spec: the declaration of `struct fenced_header` is not in
`main.c`. The fields are the ones `main.c` reads and writes: magic, version,
command and total length (unsigned, 32 bits) and the signed 32-bit
argument/result slot `data`. -/
structure fenced_header where
  magic : Nat
  version : Nat
  command : Nat
  len : Nat
  data : Int
  deriving DecidableEq

/-- The procedures of other source files that the handlers call. -/
inductive Proc where
  | read_ccs
  | fd_join
  | fd_join_group
  | fd_leave
  | fd_leave_group
  | send_external (nodeid : Int)
  deriving DecidableEq

/-- What a handler does to the outside: closing a descriptor, a `do_write`
call with the bytes of its buffer, a call into another source file. -/
inductive Event where
  | close (fd : Int)
  | do_write (fd : Int) (buf : List Byte)
  | call (p : Proc)
  deriving DecidableEq

/-- Everything `main.c` takes from elsewhere: the constants and type sizes of
the headers, the layout of the header on the wire, the procedures of the
membership back end, and the contents of uninitialised local records. -/
structure Env where
  FENCED_MAGIC : Nat
  FENCED_VERSION : Nat
  FENCED_CMD_JOIN : Nat
  FENCED_CMD_LEAVE : Nat
  FENCED_CMD_EXTERNAL : Nat
  FENCED_CMD_DUMP_DEBUG : Nat
  FENCED_CMD_NODE_INFO : Nat
  FENCED_CMD_DOMAIN_INFO : Nat
  FENCED_CMD_DOMAIN_MEMBERS : Nat
  GROUP_LIBGROUP : Int
  MAX_GROUPNAME_LEN : Nat
  DUMP_SIZE : Nat
  sizeof_fenced_header : Nat
  sizeof_fenced_node : Nat
  sizeof_fenced_domain : Nat
  encode_header : fenced_header → List Byte
  decode_header : List Byte → fenced_header
  read_ccs : Domain → Daemon → Int × Daemon
  fd_join : Domain → Daemon → Int × Daemon
  fd_join_group : Domain → Daemon → Int × Daemon
  fd_leave : Domain → Daemon → Int × Daemon
  fd_leave_group : Domain → Daemon → Int × Daemon
  send_external : Domain → Int → Daemon → Daemon
  name_to_nodeid : Option (List Byte) → Int
  set_node_info : Domain → Int → List Byte → Int × List Byte
  set_node_info_group : Domain → Int → List Byte → Int × List Byte
  set_domain_info : Domain → List Byte → Int × List Byte
  set_domain_info_group : Domain → List Byte → Int × List Byte
  set_domain_members : Domain → Int × Int × Option (List (List Byte))
  stack_node : List Byte
  stack_domain : List Byte

/-- The errno value `ENOENT` of `<errno.h>`. -/
def ENOENT : Int := 2

/-- The errno value `E2BIG`. -/
def E2BIG : Int := 7

/-- The errno value `ENOMEM`. -/
def ENOMEM : Int := 12

/-- The errno value `EEXIST`. -/
def EEXIST : Int := 17

/-- The errno value `EINVAL`. -/
def EINVAL : Int := 22

/-- The errno value `ENOSYS`. -/
def ENOSYS : Int := 38

/-- The conversion of an integer value to a 32-bit `int`. -/
def to_int (x : Int) : Int :=
  if x % 4294967296 < 2147483648 then x % 4294967296 else x % 4294967296 - 4294967296

/-- The string `"default"`. -/
def default_name : List Byte := [100, 101, 102, 97, 117, 108, 116]

/-- The read `client[i]` for an `int` index; `none` outside the table. -/
def client_at (st : Daemon) (i : Int) : Option Client :=
  if i < 0 then none else (st.client.getD [])[i.toNat]?

/-- The function `client_dead`: close the descriptor and free the slot. -/
def client_dead (st : Daemon) (ci : Nat) : Daemon × List Event :=
  ({ st with
     client := st.client.map (fun c =>
       c.set ci { (c.getD ci fresh_client) with workfn := none, fd := -1 })
     pollfd := st.pollfd.map (fun p =>
       p.set ci { (p.getD ci fresh_pollfd) with fd := -1 }) },
   [Event.close ((st.client.getD []).getD ci fresh_client).fd])

/-- The function `create_fd`; a null result is `none`. -/
def create_fd (env : Env) (name : List Byte) : Option Domain :=
  if name.length > env.MAX_GROUPNAME_LEN then none else some ⟨name⟩

/-- The function `find_fd`: the first domain whose name has the length of
`name` and agrees with it on that length. -/
def find_fd (st : Daemon) (name : List Byte) : Option Domain :=
  st.domains.find? (fun fd =>
    decide (name.length = fd.name.length) && decide (fd.name.take name.length = name))

/-- The function `do_join`: the value returned, the state and the calls made. -/
def do_join (env : Env) (st : Daemon) (name : List Byte) : Int × Daemon × List Event :=
  match find_fd st name with
  | some _ => (-EEXIST, st, [])
  | none =>
    match create_fd env name with
    | none => (-ENOMEM, st, [])
    | some fd =>
      let r := env.read_ccs fd st
      if r.1 ≠ 0 then (r.1, r.2, [Event.call Proc.read_ccs])
      else if r.2.group_mode = env.GROUP_LIBGROUP then
        let j := env.fd_join_group fd r.2
        (j.1, j.2, [Event.call Proc.read_ccs, Event.call Proc.fd_join_group])
      else
        let j := env.fd_join fd r.2
        (j.1, j.2, [Event.call Proc.read_ccs, Event.call Proc.fd_join])

/-- The function `do_leave`. -/
def do_leave (env : Env) (st : Daemon) (name : List Byte) : Int × Daemon × List Event :=
  match find_fd st name with
  | none => (-EINVAL, st, [])
  | some fd =>
    if st.group_mode = env.GROUP_LIBGROUP then
      let l := env.fd_leave_group fd st
      (l.1, l.2, [Event.call Proc.fd_leave_group])
    else
      let l := env.fd_leave fd st
      (l.1, l.2, [Event.call Proc.fd_leave])

/-- The function `do_external`; a null `extra` is `none`. -/
def do_external (env : Env) (st : Daemon) (name : List Byte) (extra : Option (List Byte)) :
    Int × Daemon × List Event :=
  match find_fd st name with
  | none => (-EINVAL, st, [])
  | some fd =>
    if st.group_mode = env.GROUP_LIBGROUP then (-ENOSYS, st, [])
    else
      (0, env.send_external fd (env.name_to_nodeid extra) st,
       [Event.call (Proc.send_external (env.name_to_nodeid extra))])

/-- The function `do_reply(ci, cmd, result, buf, len)`: the `do_write` it
issues. `some []` when `malloc` returns null, which it does for a negative
`reply_len` (an enormous `size_t`); an allocation of a size that fits an `int`
succeeds. `none` when the run leaves defined behaviour: a block shorter than
the header, a copy longer than the source, an index outside the table. A null
`buf` is `none`. -/
def do_reply (env : Env) (st : Daemon) (ci : Int) (cmd : Nat) (result : Int)
    (buf : Option (List Byte)) (len : Int) : Option (List Event) :=
  let reply_len := to_int ((env.sizeof_fenced_header : Int) + len)
  if reply_len < 0 then some []
  else if reply_len < (env.sizeof_fenced_header : Int) then none
  else
    let rh : fenced_header :=
      { magic := env.FENCED_MAGIC
        version := env.FENCED_VERSION
        len := reply_len.toNat
        command := cmd
        data := result }
    let payload : Option (List Byte) :=
      match buf with
      | none => some (List.replicate len.toNat 0)
      | some b => if b.length < len.toNat then none else some (b.take len.toNat)
    match payload, client_at st ci with
    | some p, some c => some [Event.do_write c.fd (env.encode_header rh ++ p)]
    | _, _ => none

/-- The function `do_dump`. `none` for a cursor outside the buffer. -/
def do_dump (env : Env) (st : Daemon) (ci : Nat) : Option (Daemon × List Event) :=
  if env.DUMP_SIZE ≤ st.dump_point then none
  else
    match do_reply env st ci env.FENCED_CMD_DUMP_DEBUG 0 none 0, client_at st ci with
    | some ack, some c =>
      let tail : List Event :=
        if st.dump_wrap ≠ 0 then
          [Event.do_write c.fd
            ((st.dump_buf.drop st.dump_point).take (env.DUMP_SIZE - st.dump_point))]
        else []
      let len := st.dump_point
      let st1 : Daemon := { st with dump_buf := st.dump_buf.set st.dump_point 0 }
      some (st1, ack ++ tail ++ [Event.do_write c.fd (st1.dump_buf.take len)])
    | _, _ => none

/-- The function `do_node_info`. -/
def do_node_info (env : Env) (st : Daemon) (ci : Nat) (nodeid : Int) :
    Option (Daemon × List Event) :=
  let r : Int × List Byte :=
    match find_fd st default_name with
    | none => (-ENOENT, env.stack_node)
    | some fd =>
      if st.group_mode = env.GROUP_LIBGROUP then env.set_node_info_group fd nodeid env.stack_node
      else env.set_node_info fd nodeid env.stack_node
  match client_at st ci with
  | none => none
  | some c =>
    (do_reply env st c.fd env.FENCED_CMD_NODE_INFO r.1 (some r.2)
      env.sizeof_fenced_node).map (fun ev => (st, ev))

/-- The function `do_domain_info`. -/
def do_domain_info (env : Env) (st : Daemon) (ci : Nat) : Option (Daemon × List Event) :=
  let r : Int × List Byte :=
    match find_fd st default_name with
    | none => (-ENOENT, env.stack_domain)
    | some fd =>
      if st.group_mode = env.GROUP_LIBGROUP then env.set_domain_info_group fd env.stack_domain
      else env.set_domain_info fd env.stack_domain
  match client_at st ci with
  | none => none
  | some c =>
    (do_reply env st c.fd env.FENCED_CMD_DOMAIN_INFO r.1 (some r.2)
      env.sizeof_fenced_domain).map (fun ev => (st, ev))

/-- The values of `rv`, `members` and `member_count` that `do_domain_members`
has at the label `out`. -/
def domain_members_out (env : Env) (st : Daemon) (max : Int) :
    Int × Option (List (List Byte)) × Int :=
  match find_fd st default_name with
  | none => (-ENOENT, none, 0)
  | some fd =>
    let r : Int × Int × Option (List (List Byte)) :=
      if st.group_mode = env.GROUP_LIBGROUP then env.set_domain_members fd
      else env.set_domain_members fd
    if r.1 < 0 then (r.1, r.2.2, 0)
    else if r.2.1 > max then (-E2BIG, r.2.2, max)
    else (r.2.1, r.2.2, r.2.1)

/-- The length argument `member_count * sizeof(struct fenced_node)` that
`do_domain_members` hands to `do_reply`, as the `int` it is received as. -/
def domain_members_len (env : Env) (st : Daemon) (max : Int) : Int :=
  to_int ((domain_members_out env st max).2.2 * (env.sizeof_fenced_node : Int))

/-- The function `do_domain_members`. -/
def do_domain_members (env : Env) (st : Daemon) (ci : Nat) (max : Int) :
    Option (Daemon × List Event) :=
  let out := domain_members_out env st max
  match client_at st ci with
  | none => none
  | some c =>
    (do_reply env st c.fd env.FENCED_CMD_DOMAIN_MEMBERS out.1
      (out.2.1.map List.flatten) (domain_members_len env st max)).map (fun ev => (st, ev))

/-- The `switch (h.command)` of `process_connection`; `extra` is the buffer of
extra bytes, `none` when the pointer is null. -/
def dispatch (env : Env) (st : Daemon) (ci : Nat) (h : fenced_header)
    (extra : Option (List Byte)) : Option (Daemon × List Event) :=
  if h.command = env.FENCED_CMD_JOIN then
    let r := do_join env st default_name
    some (r.2.1, r.2.2)
  else if h.command = env.FENCED_CMD_LEAVE then
    let r := do_leave env st default_name
    some (r.2.1, r.2.2)
  else if h.command = env.FENCED_CMD_EXTERNAL then
    let r := do_external env st default_name extra
    some (r.2.1, r.2.2)
  else if h.command = env.FENCED_CMD_DUMP_DEBUG then do_dump env st ci
  else if h.command = env.FENCED_CMD_NODE_INFO then do_node_info env st ci h.data
  else if h.command = env.FENCED_CMD_DOMAIN_INFO then do_domain_info env st ci
  else if h.command = env.FENCED_CMD_DOMAIN_MEMBERS then do_domain_members env st ci h.data
  else some (st, [])

/-- The function `process_connection(ci)` against a script of answers to its
`read` calls. `none` when the script runs out before a `do_read` returns, or
the run leaves defined behaviour. A `malloc` of the extra bytes returns null
exactly when `extra_len` is negative. -/
def process_connection (env : Env) (st : Daemon) (ci : Nat) (script : List ReadAnswer) :
    Option (Daemon × List Event) :=
  match client_at st ci with
  | none => none
  | some _ =>
    let r := do_read script (List.replicate env.sizeof_fenced_header 0)
      env.sizeof_fenced_header
    match r.result with
    | none => none
    | some rv =>
      let h := env.decode_header r.buf
      let body : Option (Daemon × List Event) :=
        if rv < 0 then some (st, [])
        else if h.magic ≠ env.FENCED_MAGIC then some (st, [])
        else if (h.version &&& 0xFFFF0000) ≠ (env.FENCED_VERSION &&& 0xFFFF0000) then
          some (st, [])
        else if h.len > env.sizeof_fenced_header then
          let extra_len := to_int ((h.len : Int) - (env.sizeof_fenced_header : Int))
          if extra_len < 0 then some (st, [])
          else
            let e := do_read r.rest (List.replicate extra_len.toNat 0) extra_len.toNat
            match e.result with
            | none => none
            | some rv2 =>
              if rv2 < 0 then some (st, [])
              else dispatch env st ci h (some e.buf)
        else dispatch env st ci h none
      body.map (fun b => ((client_dead b.1 ci).1, b.2 ++ (client_dead b.1 ci).2))

/-! ## A concrete environment -/

/-- Four bytes of a 32-bit value, least significant first. -/
def le32 (x : Nat) : List Byte :=
  [x % 256, x / 256 % 256, x / 65536 % 256, x / 16777216 % 256]

/-- The 32-bit value of four bytes, least significant first. -/
def of_le32 (b : List Byte) : Nat :=
  b.getD 0 0 + 256 * b.getD 1 0 + 65536 * b.getD 2 0 + 16777216 * b.getD 3 0

/-- The two's complement encoding of a 32-bit `int`. -/
def nat_of_int32 (x : Int) : Nat := (x % 4294967296).toNat

/-- A sample header layout: five 32-bit words in the order magic, version,
length, command, data. -/
def sample_encode (h : fenced_header) : List Byte :=
  le32 h.magic ++ le32 h.version ++ le32 h.len ++ le32 h.command ++ le32 (nat_of_int32 h.data)

/-- The inverse of `sample_encode`. -/
def sample_decode (b : List Byte) : fenced_header :=
  { magic := of_le32 b
    version := of_le32 (b.drop 4)
    len := of_le32 (b.drop 8)
    command := of_le32 (b.drop 12)
    data := to_int (of_le32 (b.drop 16)) }

/-- A sample 4-byte member record for node `n`. -/
def sample_node (n : Nat) : List Byte := [n, 0, 0, 0]

/-- A sample environment: a 20-byte header, 4-byte records, and a back end
with `members` member records in every domain. -/
def sample_env (dump_size : Nat) (members : List (List Byte)) : Env :=
  { FENCED_MAGIC := 254
    FENCED_VERSION := 65536
    FENCED_CMD_JOIN := 1
    FENCED_CMD_LEAVE := 2
    FENCED_CMD_EXTERNAL := 3
    FENCED_CMD_DUMP_DEBUG := 4
    FENCED_CMD_NODE_INFO := 5
    FENCED_CMD_DOMAIN_INFO := 6
    FENCED_CMD_DOMAIN_MEMBERS := 7
    GROUP_LIBGROUP := 2
    MAX_GROUPNAME_LEN := 32
    DUMP_SIZE := dump_size
    sizeof_fenced_header := 20
    sizeof_fenced_node := 4
    sizeof_fenced_domain := 4
    encode_header := sample_encode
    decode_header := sample_decode
    read_ccs := fun _ st => (0, st)
    fd_join := fun fd st => (0, { st with domains := fd :: st.domains })
    fd_join_group := fun fd st => (0, { st with domains := fd :: st.domains })
    fd_leave := fun fd st => (0, { st with domains := st.domains.filter (fun d => d ≠ fd) })
    fd_leave_group := fun fd st =>
      (0, { st with domains := st.domains.filter (fun d => d ≠ fd) })
    send_external := fun _ _ st => st
    name_to_nodeid := fun _ => 1
    set_node_info := fun _ nodeid _ => (0, sample_node nodeid.toNat)
    set_node_info_group := fun _ nodeid _ => (0, sample_node nodeid.toNat)
    set_domain_info := fun _ _ => (0, [1, 0, 0, 0])
    set_domain_info_group := fun _ _ => (0, [1, 0, 0, 0])
    set_domain_members := fun _ => (0, members.length, some members)
    stack_node := [0, 0, 0, 0]
    stack_domain := [0, 0, 0, 0] }

/-- A daemon with the listener in slot 0 (descriptor 4), the cluster channel
in slot 1 (descriptor 5), one client connection in slot 2 (descriptor 6), and
the domain `"default"`. -/
def sample_daemon (dump_size : Nat) : Daemon :=
  { client_maxi := 2
    client_size := 32
    client := some
      ([⟨4, some Callback.process_listener, some Callback.client_dead⟩,
        ⟨5, some Callback.process_cman, some Callback.cluster_dead⟩,
        ⟨6, some Callback.process_connection, some Callback.client_dead⟩] ++
       List.replicate 29 ⟨-1, none, none⟩)
    pollfd := some
      ([⟨4, POLLIN, 0⟩, ⟨5, POLLIN, 0⟩, ⟨6, POLLIN, POLLIN⟩] ++ List.replicate 29 ⟨-1, 0, 0⟩)
    dump_buf := List.replicate dump_size 0
    dump_point := 0
    dump_wrap := 0
    daemon_debug_buf := List.replicate 256 0
    group_mode := 0
    domains := [⟨default_name⟩] }

/-- The state of the sample daemon after the chars `abcde` were logged into a
ring of four chars: the ring holds `e b c d`, the cursor is 1, the ring has
wrapped. -/
def wrapped_daemon : Daemon :=
  dump_appends 4 (sample_daemon 4) [[97, 98, 99, 0], [100, 101, 0]]

/-- The slot that `client_add` writes into `client` for a registration. -/
def slot_of (r : Registration) : Client :=
  { fd := r.fd
    workfn := r.workfn
    deadfn := deadfn_or_default r.deadfn }

/-- The entry that `client_add` leaves in `pollfd` for a registration made in
a slot that `client_alloc` had marked free. -/
def poll_of (r : Registration) : Pollfd := ⟨r.fd, POLLIN, 0⟩

/-- The reactor holds exactly the registrations `regs`, in slot order, in a
table of `32 * ceil(n / 32)` slots whose other slots are free. -/
def reactor_holds (regs : List Registration) (st : Daemon) : Prop :=
  st.client_size = CLIENT_NALLOC * ((regs.length + 31) / 32) ∧
  st.client_maxi = ((regs.length - 1 : Nat) : Int) ∧
  (regs = [] → st.client = none ∧ st.pollfd = none) ∧
  (regs ≠ [] →
    st.client = some (regs.map slot_of ++
      List.replicate (st.client_size - regs.length) ⟨-1, none, none⟩) ∧
    st.pollfd = some (regs.map poll_of ++
      List.replicate (st.client_size - regs.length) ⟨-1, 0, 0⟩))

/-- Forty registrations: client connections on the descriptors 3 to 42. -/
def forty_regs : List Registration :=
  (List.range 40).map (fun i => ⟨(i : Int) + 3, some Callback.process_connection, none⟩)

/-- Five sample member records, for the nodes 1 to 5. -/
def five_members : List (List Byte) :=
  [sample_node 1, sample_node 2, sample_node 3, sample_node 4, sample_node 5]

/-- The descriptors of the `do_write` calls in a list of events. -/
def write_fds (evs : List Event) : List Int :=
  evs.filterMap (fun e =>
    match e with
    | Event.do_write fd _ => some fd
    | _ => none)

/-- The sample daemon with descriptor 40 for the client connection in slot 2. -/
def far_daemon : Daemon :=
  { sample_daemon 4 with
    client := (sample_daemon 4).client.map (fun c =>
      c.set 2 ⟨40, some Callback.process_connection, some Callback.client_dead⟩)
    pollfd := (sample_daemon 4).pollfd.map (fun p => p.set 2 ⟨40, POLLIN, POLLIN⟩) }

/-! ## Ring buffer lemmas -/

theorem dump_put_debug_buf (D : Nat) (s : Daemon) (c : Byte) :
    (dump_put D s c).daemon_debug_buf = s.daemon_debug_buf := by
  unfold dump_put
  dsimp only
  split <;> rfl

theorem for_range_dump_put (D : Nat) (n : Nat) : ∀ (lo : Nat) (st : Daemon),
    lo + n ≤ st.daemon_debug_buf.length →
    for_range n lo (fun i s => dump_put D s (s.daemon_debug_buf.getD i 0)) st =
      ((st.daemon_debug_buf.drop lo).take n).foldl (dump_put D) st := by
  induction n with
  | zero => intro lo st _; simp [for_range]
  | succ n ih =>
    intro lo st h
    have hlo : lo < st.daemon_debug_buf.length := by omega
    rw [for_range, ih]
    · rw [dump_put_debug_buf]
      have hd : List.drop lo st.daemon_debug_buf =
          st.daemon_debug_buf[lo] :: List.drop (lo + 1) st.daemon_debug_buf := by
        simp
      rw [hd, List.take_succ_cons, List.foldl_cons]
      congr 1
      simp [List.getD_eq_getElem?_getD, hlo]
    · rw [dump_put_debug_buf]; omega

theorem strlen_le (s : List Byte) : strlen s ≤ s.length := by
  unfold strlen
  exact (List.takeWhile_sublist _).length_le

theorem daemon_dump_save_eq (D : Nat) (st : Daemon) :
    daemon_dump_save D st = (logged st.daemon_debug_buf).foldl (dump_put D) st := by
  unfold daemon_dump_save logged
  dsimp only
  rw [for_range_dump_put D _ 0 st (by have := strlen_le st.daemon_debug_buf; omega)]
  simp

theorem succ_mod_wrap (D n : Nat) (h : n % D + 1 = D) : (n + 1) % D = 0 := by
  have h1 := Nat.div_add_mod n D
  have : n + 1 = D * (n / D + 1) := by
    rw [Nat.mul_add, Nat.mul_one]; omega
  rw [this]; exact Nat.mul_mod_right _ _

theorem succ_mod_step (D n : Nat) (hD : 0 < D) (h : n % D + 1 ≠ D) :
    (n + 1) % D = n % D + 1 := by
  have hlt : n % D < D := Nat.mod_lt _ hD
  have h1 := Nat.div_add_mod n D
  have h2 : (n + 1) % D = (D * (n / D) + (n % D + 1)) % D := by
    congr 1; omega
  rw [h2, Nat.mul_add_mod, Nat.mod_eq_of_lt (by omega)]

theorem mod_ne_of_close (D k n : Nat) (hkn : k < n) (hn : n < k + D) : k % D ≠ n % D := by
  intro h
  have h0 : (n - k) % D = 0 := Nat.sub_mod_eq_zero_of_mod_eq h.symm
  have hdvd : D ∣ n - k := Nat.dvd_of_mod_eq_zero h0
  have := Nat.le_of_dvd (by omega) hdvd
  omega

theorem ring_inv_put (D : Nat) (hD : 0 < D) (bs : List Byte) (st : Daemon) (c : Byte)
    (h : ring_inv D bs st) : ring_inv D (bs ++ [c]) (dump_put D st c) := by
  obtain ⟨hlen, hp, hw01, hw, hbuf⟩ := h
  have hplt : st.dump_point < D := by rw [hp]; exact Nat.mod_lt _ hD
  have hbuf' : ∀ k, k < (bs ++ [c]).length → (bs ++ [c]).length ≤ k + D →
      (st.dump_buf.set st.dump_point c)[k % D]? = (bs ++ [c])[k]? := by
    intro k hk hkD
    simp only [List.length_append, List.length_singleton] at hk hkD
    by_cases hkn : k = bs.length
    · subst hkn
      rw [← hp, List.getElem?_set_self (by omega)]
      simp
    · have hk' : k < bs.length := by omega
      have hne : k % D ≠ bs.length % D := mod_ne_of_close D k bs.length hk' (by omega)
      rw [List.getElem?_set_ne (by rw [hp]; exact fun e => hne e.symm),
        hbuf k hk' (by omega), List.getElem?_append_left hk']
  unfold dump_put
  dsimp only
  split
  · rename_i heq
    refine ⟨by simpa using hlen, ?_, Or.inr rfl, ?_, hbuf'⟩
    · simp only [List.length_append, List.length_singleton]
      rw [hp] at heq
      exact (succ_mod_wrap D _ heq).symm
    · simp only [List.length_append, List.length_singleton, true_iff]
      have := Nat.mod_le bs.length D
      omega
  · rename_i hne
    refine ⟨by simpa using hlen, ?_, hw01, ?_, hbuf'⟩
    · simp only [List.length_append, List.length_singleton]
      rw [hp] at hne ⊢
      exact (succ_mod_step D _ hD hne).symm
    · simp only [List.length_append, List.length_singleton]
      rw [hw]
      constructor
      · intro h; omega
      · intro h
        by_contra hc
        have hlt : bs.length < D := by omega
        rw [hp, Nat.mod_eq_of_lt hlt] at hne
        omega

theorem ring_inv_foldl (D : Nat) (hD : 0 < D) (cs : List Byte) :
    ∀ (bs : List Byte) (st : Daemon), ring_inv D bs st →
      ring_inv D (bs ++ cs) (cs.foldl (dump_put D) st) := by
  induction cs with
  | nil => intro bs st h; simpa using h
  | cons c cs ih =>
    intro bs st h
    have := ih (bs ++ [c]) (dump_put D st c) (ring_inv_put D hD bs st c h)
    simpa using this

theorem ring_inv_append (D : Nat) (hD : 0 < D) (bs : List Byte) (st : Daemon)
    (msg : List Byte) (h : ring_inv D bs st) :
    ring_inv D (bs ++ logged msg) (dump_append D st msg) := by
  unfold dump_append
  rw [daemon_dump_save_eq]
  exact ring_inv_foldl D hD _ bs _ h

theorem ring_inv_appends (D : Nat) (hD : 0 < D) (msgs : List (List Byte)) :
    ∀ (bs : List Byte) (st : Daemon), ring_inv D bs st →
      ring_inv D (bs ++ logged_all msgs) (dump_appends D st msgs) := by
  induction msgs with
  | nil => intro bs st h; simpa [logged_all, dump_appends] using h
  | cons m ms ih =>
    intro bs st h
    have := ih (bs ++ logged m) (dump_append D st m) (ring_inv_append D hD bs st m h)
    simpa [logged_all, dump_appends] using this

theorem ring_inv_init (D : Nat) (st : Daemon) (hlen : st.dump_buf.length = D)
    (hp : st.dump_point = 0) (hw : st.dump_wrap = 0) (hD : 0 < D) : ring_inv D [] st := by
  refine ⟨hlen, by simp [hp], Or.inl hw, ?_, ?_⟩
  · simp [hw]; omega
  · intro k hk; simp at hk

theorem ring_snapshot_unwrapped (D : Nat) (bs : List Byte) (s : Daemon)
    (h : ring_inv D bs s) (hw : s.dump_wrap = 0) :
    s.dump_buf.take s.dump_point = bs ∧ bs.length < D := by
  obtain ⟨hlen, hp, _, hwi, hbuf⟩ := h
  have hn : bs.length < D := by
    by_contra hc
    have : s.dump_wrap = 1 := hwi.mpr (by omega)
    omega
  refine ⟨?_, hn⟩
  rw [hp, Nat.mod_eq_of_lt hn]
  apply List.ext_getElem?
  intro i
  by_cases hi : i < bs.length
  · rw [List.getElem?_take_of_lt hi]
    have := hbuf i hi (by omega)
    rwa [Nat.mod_eq_of_lt (by omega)] at this
  · rw [List.getElem?_eq_none (by simp; omega), List.getElem?_eq_none (by omega)]

theorem ring_snapshot_wrapped (D : Nat) (hD : 0 < D) (bs : List Byte) (s : Daemon)
    (h : ring_inv D bs s) (hw : s.dump_wrap ≠ 0) :
    s.dump_buf.drop s.dump_point ++ s.dump_buf.take s.dump_point =
      bs.drop (bs.length - D) ∧ D ≤ bs.length := by
  obtain ⟨hlen, hp, hw01, hwi, hbuf⟩ := h
  have hn : D ≤ bs.length := hwi.mp (by omega)
  refine ⟨?_, hn⟩
  have hplt : s.dump_point < D := by rw [hp]; exact Nat.mod_lt _ hD
  have hdm := Nat.div_add_mod bs.length D
  have hq : 1 ≤ bs.length / D := (Nat.one_le_div_iff hD).mpr hn
  apply List.ext_getElem?
  intro i
  rw [List.getElem?_drop]
  by_cases hi : i < D - s.dump_point
  · rw [List.getElem?_append_left (by simp; omega), List.getElem?_drop]
    have hk := hbuf (bs.length - D + i) (by omega) (by omega)
    have hmod : (bs.length - D + i) % D = s.dump_point + i := by
      have e : bs.length - D + i = D * (bs.length / D - 1) + (s.dump_point + i) := by
        have : D * (bs.length / D - 1) = D * (bs.length / D) - D := by
          rw [Nat.mul_sub, Nat.mul_one]
        have hge : D ≤ D * (bs.length / D) := Nat.le_mul_of_pos_right D hq
        omega
      rw [e, Nat.mul_add_mod, Nat.mod_eq_of_lt (by omega)]
    rw [hmod] at hk
    exact hk
  · rw [List.getElem?_append_right (by simp; omega)]
    simp only [List.length_drop, hlen]
    by_cases hi2 : i < D
    · rw [List.getElem?_take_of_lt (by omega)]
      have hk := hbuf (bs.length - D + i) (by omega) (by omega)
      have hmod : (bs.length - D + i) % D = i - (D - s.dump_point) := by
        have e : bs.length - D + i = D * (bs.length / D) + (i - (D - s.dump_point)) := by
          omega
        rw [e, Nat.mul_add_mod, Nat.mod_eq_of_lt (by omega)]
      rw [hmod] at hk
      exact hk
    · rw [List.getElem?_eq_none (by simp; omega), List.getElem?_eq_none (by omega)]

theorem logged_cons_nul (c : Byte) (hc : c ≠ 0) : logged [c, 0] = [c] := by
  simp [logged, strlen, List.takeWhile, hc]

theorem logged_all_append (a b : List (List Byte)) :
    logged_all (a ++ b) = logged_all a ++ logged_all b := by
  simp [logged_all]

/-- C5: starting from an empty ring (`dump_point = 0`, `dump_wrap = 0`) of
capacity `D`, after any sequence of appends that logged `n` chars in all:
`dump_point = n mod D` and `dump_point < D`; `dump_wrap` is 0 or 1, it is 1
exactly when `n ≥ D`, and further appends keep it at 1; and the `k`-th logged
char is at offset `k mod D`, for every `k` among the last `D`. In particular
after exactly `D` chars the flag is set and the cursor is 0, and one further
char is stored at offset 0. -/
theorem daemon_dump_save_ring (D : Nat) (hD : 0 < D) (st : Daemon)
    (hlen : st.dump_buf.length = D) (hp : st.dump_point = 0) (hw : st.dump_wrap = 0)
    (msgs : List (List Byte)) :
    (dump_appends D st msgs).dump_point = (logged_all msgs).length % D ∧
    (dump_appends D st msgs).dump_point < D ∧
    ((dump_appends D st msgs).dump_wrap = 0 ∨ (dump_appends D st msgs).dump_wrap = 1) ∧
    ((dump_appends D st msgs).dump_wrap = 1 ↔ D ≤ (logged_all msgs).length) ∧
    (∀ more : List (List Byte), (dump_appends D st msgs).dump_wrap = 1 →
      (dump_appends D st (msgs ++ more)).dump_wrap = 1) ∧
    (∀ k, k < (logged_all msgs).length → (logged_all msgs).length ≤ k + D →
      (dump_appends D st msgs).dump_buf[k % D]? = (logged_all msgs)[k]?) ∧
    ((logged_all msgs).length = D →
      (dump_appends D st msgs).dump_wrap = 1 ∧ (dump_appends D st msgs).dump_point = 0 ∧
      ∀ c : Byte, c ≠ 0 →
        (dump_appends D st (msgs ++ [[c, 0]])).dump_buf[0]? = some c ∧
        (dump_appends D st (msgs ++ [[c, 0]])).dump_point = 1 % D) := by
  have hinv : ∀ ms : List (List Byte), ring_inv D (logged_all ms) (dump_appends D st ms) := by
    intro ms
    have := ring_inv_appends D hD ms [] st (ring_inv_init D st hlen hp hw hD)
    simpa using this
  obtain ⟨_, h2, h3, h4, h5⟩ := hinv msgs
  refine ⟨h2, by rw [h2]; exact Nat.mod_lt _ hD, h3, h4, ?_, h5, ?_⟩
  · intro more h1
    obtain ⟨_, _, _, m4, _⟩ := hinv (msgs ++ more)
    rw [m4, logged_all_append, List.length_append]
    have := h4.mp h1
    omega
  · intro hn
    refine ⟨h4.mpr (by omega), by rw [h2, hn, Nat.mod_self], ?_⟩
    intro c hc
    obtain ⟨_, m2, _, _, m5⟩ := hinv (msgs ++ [[c, 0]])
    have hl : logged_all (msgs ++ [[c, 0]]) = logged_all msgs ++ [c] := by
      rw [logged_all_append]
      simp [logged_all, logged_cons_nul c hc]
    rw [hl] at m2 m5
    have h0 := m5 D (by simp [hn]) (by simp [hn]; omega)
    rw [Nat.mod_self] at h0
    rw [h0, m2]
    constructor
    · rw [List.getElem?_append_right (by omega)]
      simp [hn]
    · simp only [List.length_append, List.length_singleton, hn]
      rw [Nat.add_mod, Nat.mod_self, Nat.zero_add, Nat.mod_mod]

theorem daemon_dump_save_ring_witness :
    (0 < 4) ∧ (initial_daemon 4).dump_buf.length = 4 ∧ (initial_daemon 4).dump_point = 0 ∧
    (initial_daemon 4).dump_wrap = 0 ∧
    ((dump_appends 4 (initial_daemon 4) [[97, 98, 0], [99, 100, 0]]).dump_point =
        (logged_all [[97, 98, 0], [99, 100, 0]]).length % 4 ∧
      (dump_appends 4 (initial_daemon 4) [[97, 98, 0], [99, 100, 0]]).dump_point < 4 ∧
      ((dump_appends 4 (initial_daemon 4) [[97, 98, 0], [99, 100, 0]]).dump_wrap = 0 ∨
        (dump_appends 4 (initial_daemon 4) [[97, 98, 0], [99, 100, 0]]).dump_wrap = 1) ∧
      ((dump_appends 4 (initial_daemon 4) [[97, 98, 0], [99, 100, 0]]).dump_wrap = 1 ↔
        4 ≤ (logged_all [[97, 98, 0], [99, 100, 0]]).length) ∧
      (∀ more : List (List Byte),
        (dump_appends 4 (initial_daemon 4) [[97, 98, 0], [99, 100, 0]]).dump_wrap = 1 →
        (dump_appends 4 (initial_daemon 4) ([[97, 98, 0], [99, 100, 0]] ++ more)).dump_wrap
          = 1) ∧
      (∀ k, k < (logged_all [[97, 98, 0], [99, 100, 0]]).length →
        (logged_all [[97, 98, 0], [99, 100, 0]]).length ≤ k + 4 →
        (dump_appends 4 (initial_daemon 4) [[97, 98, 0], [99, 100, 0]]).dump_buf[k % 4]? =
          (logged_all [[97, 98, 0], [99, 100, 0]])[k]?) ∧
      ((logged_all [[97, 98, 0], [99, 100, 0]]).length = 4 →
        (dump_appends 4 (initial_daemon 4) [[97, 98, 0], [99, 100, 0]]).dump_wrap = 1 ∧
        (dump_appends 4 (initial_daemon 4) [[97, 98, 0], [99, 100, 0]]).dump_point = 0 ∧
        ∀ c : Byte, c ≠ 0 →
          (dump_appends 4 (initial_daemon 4)
            ([[97, 98, 0], [99, 100, 0]] ++ [[c, 0]])).dump_buf[0]? = some c ∧
          (dump_appends 4 (initial_daemon 4)
            ([[97, 98, 0], [99, 100, 0]] ++ [[c, 0]])).dump_point = 1 % 4)) :=
  ⟨by decide, rfl, rfl, rfl,
    daemon_dump_save_ring 4 (by decide) (initial_daemon 4) rfl rfl rfl
      [[97, 98, 0], [99, 100, 0]]⟩

theorem to_int_of_range (x : Int) (h0 : 0 ≤ x) (h1 : x < 2147483648) : to_int x = x := by
  unfold to_int
  have : x % 4294967296 = x := Int.emod_eq_of_lt h0 (by omega)
  rw [this, if_pos h1]

theorem dump_put_client (D : Nat) (s : Daemon) (c : Byte) :
    (dump_put D s c).client = s.client := by
  unfold dump_put
  dsimp only
  split <;> rfl

theorem foldl_dump_put_client (D : Nat) (cs : List Byte) :
    ∀ s : Daemon, (cs.foldl (dump_put D) s).client = s.client := by
  induction cs with
  | nil => intro s; rfl
  | cons c cs ih => intro s; rw [List.foldl_cons, ih, dump_put_client]

theorem dump_appends_client (D : Nat) (msgs : List (List Byte)) :
    ∀ s : Daemon, (dump_appends D s msgs).client = s.client := by
  induction msgs with
  | nil => intro s; rfl
  | cons m ms ih =>
    intro s
    have e : dump_appends D s (m :: ms) = dump_appends D (dump_append D s m) ms := rfl
    rw [e, ih]
    unfold dump_append
    rw [daemon_dump_save_eq, foldl_dump_put_client]

theorem client_at_congr (s t : Daemon) (h : s.client = t.client) (i : Int) :
    client_at s i = client_at t i := by
  unfold client_at
  rw [h]

theorem take_set_self {α : Type} (l : List α) (n : Nat) (a : α) :
    (l.set n a).take n = l.take n := by
  rw [List.set_take, List.set_eq_of_length_le]
  simp

theorem do_reply_ack (env : Env) (hsize : (env.sizeof_fenced_header : Int) < 2147483648)
    (s : Daemon) (ci : Nat) (c : Client) (hc : client_at s ci = some c) :
    do_reply env s ci env.FENCED_CMD_DUMP_DEBUG 0 none 0 =
      some [Event.do_write c.fd (env.encode_header
        { magic := env.FENCED_MAGIC
          version := env.FENCED_VERSION
          command := env.FENCED_CMD_DUMP_DEBUG
          len := env.sizeof_fenced_header
          data := 0 })] := by
  unfold do_reply
  simp only [Int.add_zero]
  rw [to_int_of_range _ (by omega) hsize]
  simp [hc]

theorem do_dump_eq (env : Env) (hsize : (env.sizeof_fenced_header : Int) < 2147483648)
    (s : Daemon) (ci : Nat) (c : Client) (hc : client_at s ci = some c)
    (hpt : s.dump_point < env.DUMP_SIZE) :
    do_dump env s ci =
      some ({ s with dump_buf := s.dump_buf.set s.dump_point 0 },
        [Event.do_write c.fd (env.encode_header
          { magic := env.FENCED_MAGIC
            version := env.FENCED_VERSION
            command := env.FENCED_CMD_DUMP_DEBUG
            len := env.sizeof_fenced_header
            data := 0 })] ++
        (if s.dump_wrap ≠ 0 then
          [Event.do_write c.fd
            ((s.dump_buf.drop s.dump_point).take (env.DUMP_SIZE - s.dump_point))]
         else []) ++
        [Event.do_write c.fd (s.dump_buf.take s.dump_point)]) := by
  unfold do_dump
  rw [if_neg (by omega), do_reply_ack env hsize s ci c hc, hc]
  simp [take_set_self]

/-- C6: in a state reached from an empty ring by appends that logged `n` chars,
`do_dump` on slot `ci` returns, and with the ring not wrapped it issues two
writes: the ack header (command `DUMP_DEBUG`, result 0, length the header size)
and `dump_buf[0..dump_point)`; with the ring wrapped it issues three: the ack
header, `dump_buf[dump_point..DUMP_SIZE)` and `dump_buf[0..dump_point)`. The
bytes after the header are the last `min n DUMP_SIZE` logged chars, oldest
first. -/
theorem do_dump_chronological (env : Env) (hD : 0 < env.DUMP_SIZE)
    (hsize : (env.sizeof_fenced_header : Int) < 2147483648)
    (st : Daemon) (hlen : st.dump_buf.length = env.DUMP_SIZE)
    (hp : st.dump_point = 0) (hw : st.dump_wrap = 0)
    (ci : Nat) (c : Client) (hc : client_at st ci = some c)
    (msgs : List (List Byte)) (s : Daemon) (hs : s = dump_appends env.DUMP_SIZE st msgs) :
    (s.dump_wrap = 0 →
      do_dump env s ci =
        some ({ s with dump_buf := s.dump_buf.set s.dump_point 0 },
          [Event.do_write c.fd (env.encode_header
            { magic := env.FENCED_MAGIC
              version := env.FENCED_VERSION
              command := env.FENCED_CMD_DUMP_DEBUG
              len := env.sizeof_fenced_header
              data := 0 }),
           Event.do_write c.fd (s.dump_buf.take s.dump_point)]) ∧
      s.dump_buf.take s.dump_point =
        (logged_all msgs).drop ((logged_all msgs).length - env.DUMP_SIZE)) ∧
    (s.dump_wrap ≠ 0 →
      do_dump env s ci =
        some ({ s with dump_buf := s.dump_buf.set s.dump_point 0 },
          [Event.do_write c.fd (env.encode_header
            { magic := env.FENCED_MAGIC
              version := env.FENCED_VERSION
              command := env.FENCED_CMD_DUMP_DEBUG
              len := env.sizeof_fenced_header
              data := 0 }),
           Event.do_write c.fd
             ((s.dump_buf.drop s.dump_point).take (env.DUMP_SIZE - s.dump_point)),
           Event.do_write c.fd (s.dump_buf.take s.dump_point)]) ∧
      (s.dump_buf.drop s.dump_point).take (env.DUMP_SIZE - s.dump_point) ++
          s.dump_buf.take s.dump_point =
        (logged_all msgs).drop ((logged_all msgs).length - env.DUMP_SIZE)) ∧
    ((logged_all msgs).drop ((logged_all msgs).length - env.DUMP_SIZE)).length =
      min (logged_all msgs).length env.DUMP_SIZE := by
  have hinv : ring_inv env.DUMP_SIZE (logged_all msgs) s := by
    have := ring_inv_appends env.DUMP_SIZE hD msgs [] st
      (ring_inv_init env.DUMP_SIZE st hlen hp hw hD)
    rw [hs]
    simpa using this
  have hcs : client_at s ci = some c := by
    rw [client_at_congr s st (by rw [hs, dump_appends_client]), hc]
  have hpt : s.dump_point < env.DUMP_SIZE := by
    rw [hinv.2.1]; exact Nat.mod_lt _ hD
  have hdump := do_dump_eq env hsize s ci c hcs hpt
  refine ⟨?_, ?_, ?_⟩
  · intro hw0
    have hsnap := ring_snapshot_unwrapped env.DUMP_SIZE (logged_all msgs) s hinv hw0
    refine ⟨?_, ?_⟩
    · rw [hdump]; simp [hw0]
    · rw [hsnap.1]
      have : (logged_all msgs).length - env.DUMP_SIZE = 0 := by have := hsnap.2; omega
      rw [this, List.drop_zero]
  · intro hw1
    have hsnap := ring_snapshot_wrapped env.DUMP_SIZE hD (logged_all msgs) s hinv hw1
    have htk : (s.dump_buf.drop s.dump_point).take (env.DUMP_SIZE - s.dump_point) =
        s.dump_buf.drop s.dump_point := by
      apply List.take_of_length_le
      rw [List.length_drop, hinv.1]
    refine ⟨?_, ?_⟩
    · rw [hdump]; simp [hw1]
    · rw [htk, hsnap.1]
  · rw [List.length_drop]; omega

theorem do_dump_chronological_witness :
    (0 < (sample_env 8 []).DUMP_SIZE) ∧
    (((sample_env 8 []).sizeof_fenced_header : Int) < 2147483648) ∧
    (sample_daemon 8).dump_buf.length = (sample_env 8 []).DUMP_SIZE ∧
    (sample_daemon 8).dump_point = 0 ∧ (sample_daemon 8).dump_wrap = 0 ∧
    client_at (sample_daemon 8) (2 : Nat) =
      some ⟨6, some Callback.process_connection, some Callback.client_dead⟩ ∧
    (dump_appends 8 (sample_daemon 8) [[97, 98, 99, 0]]).dump_wrap = 0 ∧
    (do_dump (sample_env 8 []) (dump_appends 8 (sample_daemon 8) [[97, 98, 99, 0]]) 2 =
        some ({ (dump_appends 8 (sample_daemon 8) [[97, 98, 99, 0]]) with
                dump_buf := (dump_appends 8 (sample_daemon 8) [[97, 98, 99, 0]]).dump_buf.set
                  (dump_appends 8 (sample_daemon 8) [[97, 98, 99, 0]]).dump_point 0 },
          [Event.do_write 6 ((sample_env 8 []).encode_header
            { magic := (sample_env 8 []).FENCED_MAGIC
              version := (sample_env 8 []).FENCED_VERSION
              command := (sample_env 8 []).FENCED_CMD_DUMP_DEBUG
              len := (sample_env 8 []).sizeof_fenced_header
              data := 0 }),
           Event.do_write 6
             ((dump_appends 8 (sample_daemon 8) [[97, 98, 99, 0]]).dump_buf.take
               (dump_appends 8 (sample_daemon 8) [[97, 98, 99, 0]]).dump_point)]) ∧
      (dump_appends 8 (sample_daemon 8) [[97, 98, 99, 0]]).dump_buf.take
          (dump_appends 8 (sample_daemon 8) [[97, 98, 99, 0]]).dump_point =
        (logged_all [[97, 98, 99, 0]]).drop
          ((logged_all [[97, 98, 99, 0]]).length - (sample_env 8 []).DUMP_SIZE)) :=
  ⟨by decide, by decide, rfl, rfl, rfl, rfl, by decide,
    (do_dump_chronological (sample_env 8 []) (by decide) (by decide) (sample_daemon 8)
      rfl rfl rfl 2 ⟨6, some Callback.process_connection, some Callback.client_dead⟩ rfl
      [[97, 98, 99, 0]] (dump_appends 8 (sample_daemon 8) [[97, 98, 99, 0]]) rfl).1
      (by decide)⟩

/-- C10, counterexample: on the wrapped ring holding `e b c d` (cursor 1)
`do_dump` replaces the oldest logged char `b` at the cursor by NUL, so the
buffer is not what it was and a second `do_dump` streams `NUL c d e` where the
first streamed `b c d e`. -/
theorem do_dump_not_read_only :
    wrapped_daemon.dump_buf = [101, 98, 99, 100] ∧ wrapped_daemon.dump_point = 1 ∧
    wrapped_daemon.dump_wrap = 1 ∧
    (do_dump (sample_env 4 []) wrapped_daemon 2).map (fun r => r.1.dump_buf) =
      some [101, 0, 99, 100] ∧
    (do_dump (sample_env 4 []) wrapped_daemon 2).map (fun r => r.2.drop 1) =
      some [Event.do_write 6 [98, 99, 100], Event.do_write 6 [101]] ∧
    ((do_dump (sample_env 4 []) wrapped_daemon 2).bind
        (fun r => do_dump (sample_env 4 []) r.1 2)).map (fun r => r.2.drop 1) =
      some [Event.do_write 6 [0, 99, 100], Event.do_write 6 [101]] := by
  decide

/-- C10, amended: `do_dump` on slot `ci` returns and leaves `dump_point` and
`dump_wrap` as they were; it stores a NUL at offset `dump_point` of `dump_buf`
and leaves every other offset as it was. With the ring not wrapped the logged
chars `dump_buf[0..dump_point)` are as they were, and a second `do_dump` ends
in the same state and issues the same writes as the first. -/
theorem do_dump_frame (env : Env) (hsize : (env.sizeof_fenced_header : Int) < 2147483648)
    (s : Daemon) (ci : Nat) (c : Client) (hc : client_at s ci = some c)
    (hpt : s.dump_point < env.DUMP_SIZE) :
    ∃ (s1 : Daemon) (evs : List Event),
      do_dump env s ci = some (s1, evs) ∧
      s1.dump_point = s.dump_point ∧ s1.dump_wrap = s.dump_wrap ∧
      s1.dump_buf = s.dump_buf.set s.dump_point 0 ∧
      (∀ i, i ≠ s.dump_point → s1.dump_buf[i]? = s.dump_buf[i]?) ∧
      (s.dump_wrap = 0 →
        s1.dump_buf.take s.dump_point = s.dump_buf.take s.dump_point ∧
        do_dump env s1 ci = some (s1, evs)) := by
  refine ⟨_, _, do_dump_eq env hsize s ci c hc hpt, rfl, rfl, rfl, ?_, ?_⟩
  · intro i hi
    exact List.getElem?_set_ne (fun e => hi e.symm)
  · intro hw
    refine ⟨take_set_self _ _ _, ?_⟩
    have hc1 : client_at { s with dump_buf := s.dump_buf.set s.dump_point 0 } ci = some c := by
      rw [← hc]; exact client_at_congr _ _ rfl _
    have h2 := do_dump_eq env hsize { s with dump_buf := s.dump_buf.set s.dump_point 0 } ci c
      hc1 hpt
    rw [h2]
    simp [hw, take_set_self]

theorem do_dump_frame_witness :
    (((sample_env 8 []).sizeof_fenced_header : Int) < 2147483648) ∧
    client_at (dump_appends 8 (sample_daemon 8) [[97, 98, 99, 0]]) (2 : Nat) =
      some ⟨6, some Callback.process_connection, some Callback.client_dead⟩ ∧
    (dump_appends 8 (sample_daemon 8) [[97, 98, 99, 0]]).dump_point <
      (sample_env 8 []).DUMP_SIZE ∧
    ∃ (s1 : Daemon) (evs : List Event),
      do_dump (sample_env 8 []) (dump_appends 8 (sample_daemon 8) [[97, 98, 99, 0]]) 2 =
        some (s1, evs) ∧
      s1.dump_point = (dump_appends 8 (sample_daemon 8) [[97, 98, 99, 0]]).dump_point ∧
      s1.dump_wrap = (dump_appends 8 (sample_daemon 8) [[97, 98, 99, 0]]).dump_wrap ∧
      s1.dump_buf = (dump_appends 8 (sample_daemon 8) [[97, 98, 99, 0]]).dump_buf.set
        (dump_appends 8 (sample_daemon 8) [[97, 98, 99, 0]]).dump_point 0 ∧
      (∀ i, i ≠ (dump_appends 8 (sample_daemon 8) [[97, 98, 99, 0]]).dump_point →
        s1.dump_buf[i]? = (dump_appends 8 (sample_daemon 8) [[97, 98, 99, 0]]).dump_buf[i]?) ∧
      ((dump_appends 8 (sample_daemon 8) [[97, 98, 99, 0]]).dump_wrap = 0 →
        s1.dump_buf.take (dump_appends 8 (sample_daemon 8) [[97, 98, 99, 0]]).dump_point =
          (dump_appends 8 (sample_daemon 8) [[97, 98, 99, 0]]).dump_buf.take
            (dump_appends 8 (sample_daemon 8) [[97, 98, 99, 0]]).dump_point ∧
        do_dump (sample_env 8 []) s1 2 = some (s1, evs)) :=
  ⟨by decide, by decide, by decide,
    do_dump_frame (sample_env 8 []) (by decide)
      (dump_appends 8 (sample_daemon 8) [[97, 98, 99, 0]]) 2
      ⟨6, some Callback.process_connection, some Callback.client_dead⟩ (by decide)
      (by decide)⟩

/-! ## `do_write` -/

theorem do_write_retry_sent (buf : List Byte) (script : List WriteAnswer) :
    ∀ off count : Nat,
      (do_write_retry buf script off count).result = some 0 →
      ((do_write_retry buf script off count).calls.map (fun c => c.sent)).flatten =
        (buf.drop off).take count := by
  induction script with
  | nil => intro off count h; simp [do_write_retry] at h
  | cons a script ih =>
    intro off count h
    cases a with
    | eintr =>
      simp only [do_write_retry] at h ⊢
      simpa using ih off count h
    | error e => simp [do_write_retry] at h
    | accepted k =>
      simp only [do_write_retry] at h ⊢
      by_cases hk : min k count = count
      · simp [hk]
      · simp only [ne_eq, hk, not_false_eq_true, ↓reduceIte] at h ⊢
        have := ih (off + min k count) (count - min k count) h
        simp only [List.map_cons, List.flatten_cons, this]
        have hle : min k count ≤ count := Nat.min_le_right _ _
        rw [← List.drop_drop, ← List.take_add]
        congr 1
        omega

theorem do_write_retry_chain (buf : List Byte) (script : List WriteAnswer) :
    ∀ off count : Nat,
      (∀ c ∈ (do_write_retry buf script off count).calls.head?,
        c.off = off ∧ c.count = count) ∧
      List.Chain'
        (fun a b : WriteCall =>
          (a.rv = -1 → a.eintr = true ∧ b.off = a.off ∧ b.count = a.count) ∧
          (0 ≤ a.rv → b.off = a.off + a.rv.toNat ∧ b.count = a.count - a.rv.toNat))
        (do_write_retry buf script off count).calls := by
  induction script with
  | nil => intro off count; simp [do_write_retry]
  | cons a script ih =>
    intro off count
    cases a with
    | eintr =>
      simp only [do_write_retry]
      refine ⟨by simp, ?_⟩
      rw [List.chain'_cons']
      refine ⟨?_, (ih off count).2⟩
      intro b hb
      have := (ih off count).1 b hb
      simp [this]
    | error e => simp [do_write_retry]
    | accepted k =>
      simp only [do_write_retry]
      by_cases hk : min k count = count
      · simp [hk]
      · simp only [ne_eq, hk, not_false_eq_true, ↓reduceIte]
        refine ⟨by simp, ?_⟩
        rw [List.chain'_cons']
        refine ⟨?_, (ih _ _).2⟩
        intro b hb
        have := (ih _ _).1 b hb
        simp only [this]
        constructor
        · intro h; omega
        · intro _; simp only [Int.toNat_ofNat, and_self]

theorem do_write_retry_calls (buf : List Byte) (script : List WriteAnswer) :
    ∀ off count : Nat,
      ∀ c ∈ (do_write_retry buf script off count).calls,
        c.off + c.count = off + count ∧
        ((c.rv = -1 ∧ c.sent = []) ∨
         (0 ≤ c.rv ∧ c.rv.toNat ≤ c.count ∧ c.eintr = false ∧
          c.sent = (buf.drop c.off).take c.rv.toNat)) := by
  induction script with
  | nil => intro off count c hc; simp [do_write_retry] at hc
  | cons a script ih =>
    intro off count c hc
    cases a with
    | eintr =>
      simp only [do_write_retry, List.mem_cons] at hc
      rcases hc with rfl | hc
      · simp
      · exact ih off count c hc
    | error e =>
      simp only [do_write_retry, List.mem_singleton] at hc
      subst hc; simp
    | accepted k =>
      simp only [do_write_retry] at hc
      have hle : min k count ≤ count := Nat.min_le_right _ _
      by_cases hk : min k count = count
      · simp only [ne_eq, hk, not_true_eq_false, ↓reduceIte, List.mem_singleton] at hc
        subst hc
        refine ⟨rfl, Or.inr ⟨Int.ofNat_nonneg _, ?_, rfl, ?_⟩⟩
        · simp only [Int.toNat_ofNat]; exact Nat.le_refl _
        · simp only [Int.toNat_ofNat]
      · simp only [ne_eq, hk, not_false_eq_true, ↓reduceIte, List.mem_cons] at hc
        rcases hc with rfl | hc
        · refine ⟨rfl, Or.inr ⟨Int.ofNat_nonneg _, ?_, rfl, ?_⟩⟩
          · simp only [Int.toNat_ofNat]; exact hle
          · simp only [Int.toNat_ofNat]
        · have := ih _ _ c hc
          refine ⟨by omega, this.2⟩

theorem do_write_retry_error (buf : List Byte) (script : List WriteAnswer) :
    ∀ off count : Nat,
      ((do_write_retry buf script off count).result = some 0 ∨
       (do_write_retry buf script off count).result = some (-1) ∨
       (do_write_retry buf script off count).result = none) ∧
      ((do_write_retry buf script off count).result = some (-1) ↔
        ∃ c ∈ (do_write_retry buf script off count).calls, c.rv = -1 ∧ c.eintr = false) ∧
      (∀ c ∈ (do_write_retry buf script off count).calls.dropLast,
        ¬ (c.rv = -1 ∧ c.eintr = false)) := by
  induction script with
  | nil => intro off count; simp [do_write_retry]
  | cons a script ih =>
    intro off count
    cases a with
    | eintr =>
      simp only [do_write_retry]
      obtain ⟨h1, h2, h3⟩ := ih off count
      refine ⟨h1, ?_, ?_⟩
      · rw [h2]; simp
      · intro c hc
        have hsub := List.dropLast_subset _ hc
        cases hcalls : (do_write_retry buf script off count).calls with
        | nil => rw [hcalls] at hc; simp at hc
        | cons x xs =>
          rw [hcalls, List.dropLast_cons₂, List.mem_cons] at hc
          rcases hc with rfl | hc
          · simp
          · exact h3 c (by rw [hcalls]; exact hc)
    | error e => simp [do_write_retry]
    | accepted k =>
      simp only [do_write_retry]
      by_cases hk : min k count = count
      · simp [hk]
      · simp only [ne_eq, hk, not_false_eq_true, ↓reduceIte]
        obtain ⟨h1, h2, h3⟩ := ih (off + min k count) (count - min k count)
        refine ⟨h1, ?_, ?_⟩
        · rw [h2]
          constructor
          · rintro ⟨c, hc, h⟩; exact ⟨c, List.mem_cons_of_mem _ hc, h⟩
          · rintro ⟨c, hc, h⟩
            rcases List.mem_cons.mp hc with rfl | hc
            · simp at h; omega
            · exact ⟨c, hc, h⟩
        · intro c hc
          cases hcalls : (do_write_retry buf script (off + min k count)
              (count - min k count)).calls with
          | nil => rw [hcalls] at hc; simp at hc
          | cons x xs =>
            rw [hcalls, List.dropLast_cons₂, List.mem_cons] at hc
            rcases hc with rfl | hc
            · simp; omega
            · exact h3 c (by rw [hcalls]; exact hc)

theorem to_int_of_int_range (x : Int) (h0 : -2147483648 ≤ x) (h1 : x < 2147483648) :
    to_int x = x := by
  unfold to_int
  split <;> omega

theorem do_write_retry_script (buf : List Byte) (script : List WriteAnswer) :
    ∀ off count : Nat,
      (do_write_retry buf script off count).rest =
        script.drop (do_write_retry buf script off count).calls.length ∧
      (do_write_retry buf script off count).calls.length ≤ script.length ∧
      ((do_write_retry buf script off count).result = none →
        (do_write_retry buf script off count).calls.length = script.length) ∧
      (script ≠ [] → (do_write_retry buf script off count).calls ≠ []) := by
  induction script with
  | nil => intro off count; simp [do_write_retry]
  | cons a script ih =>
    intro off count
    cases a with
    | eintr =>
      obtain ⟨h1, h2, h3, _⟩ := ih off count
      simp only [do_write_retry, List.length_cons, List.drop_succ_cons]
      exact ⟨h1, by omega, fun h => by rw [h3 h], by simp⟩
    | error e => simp [do_write_retry]
    | accepted k =>
      simp only [do_write_retry]
      by_cases hk : min k count = count
      · simp [hk]
      · simp only [ne_eq, hk, not_false_eq_true, ↓reduceIte, List.length_cons,
          List.drop_succ_cons]
        obtain ⟨h1, h2, h3, _⟩ := ih (off + min k count) (count - min k count)
        exact ⟨h1, by omega, fun h => by rw [h3 h], by simp⟩

theorem do_write_retry_answers (buf : List Byte) (script : List WriteAnswer) :
    ∀ (off count i : Nat) (c : WriteCall),
      (do_write_retry buf script off count).calls[i]? = some c →
      (script[i]? = some WriteAnswer.eintr ∧ c.rv = -1 ∧ c.eintr = true ∧ c.sent = []) ∨
      (∃ e : Int, script[i]? = some (WriteAnswer.error e) ∧
        c.rv = -1 ∧ c.eintr = false ∧ c.sent = []) ∨
      (∃ k : Nat, script[i]? = some (WriteAnswer.accepted k) ∧
        c.rv = ((min k c.count : Nat) : Int) ∧ c.eintr = false ∧
        c.sent = (buf.drop c.off).take (min k c.count)) := by
  induction script with
  | nil => intro off count i c h; simp [do_write_retry] at h
  | cons a script ih =>
    intro off count i c h
    cases a with
    | eintr =>
      simp only [do_write_retry] at h
      cases i with
      | zero =>
        simp only [List.getElem?_cons_zero, Option.some.injEq] at h
        subst h; simp
      | succ j =>
        simp only [List.getElem?_cons_succ] at h ⊢
        exact ih off count j c h
    | error e =>
      simp only [do_write_retry] at h
      cases i with
      | zero =>
        simp only [List.getElem?_cons_zero, Option.some.injEq] at h
        subst h; simp
      | succ j => simp at h
    | accepted k =>
      simp only [do_write_retry] at h
      by_cases hk : min k count = count
      · simp only [ne_eq, hk, not_true_eq_false, ↓reduceIte] at h
        cases i with
        | zero =>
          simp only [List.getElem?_cons_zero, Option.some.injEq] at h
          subst h
          refine Or.inr (Or.inr ⟨k, List.getElem?_cons_zero, ?_, rfl, ?_⟩)
          · simp only [hk]
          · simp only [hk]
        | succ j => simp at h
      · simp only [ne_eq, hk, not_false_eq_true, ↓reduceIte] at h
        cases i with
        | zero =>
          simp only [List.getElem?_cons_zero, Option.some.injEq] at h
          subst h
          exact Or.inr (Or.inr ⟨k, List.getElem?_cons_zero, rfl, rfl, rfl⟩)
        | succ j =>
          simp only [List.getElem?_cons_succ] at h ⊢
          exact ih _ _ j c h

theorem do_write_retry_full (buf : List Byte) (script : List WriteAnswer) :
    ∀ off count : Nat,
      ((do_write_retry buf script off count).result = some 0 ↔
        ∃ c ∈ (do_write_retry buf script off count).calls, c.rv = (c.count : Int)) ∧
      (∀ c ∈ (do_write_retry buf script off count).calls.dropLast,
        c.rv ≠ (c.count : Int)) := by
  induction script with
  | nil => intro off count; simp [do_write_retry]
  | cons a script ih =>
    intro off count
    cases a with
    | eintr =>
      simp only [do_write_retry]
      obtain ⟨h1, h2⟩ := ih off count
      refine ⟨?_, ?_⟩
      · rw [h1]
        constructor
        · rintro ⟨c, hc, h⟩; exact ⟨c, List.mem_cons_of_mem _ hc, h⟩
        · rintro ⟨c, hc, h⟩
          rcases List.mem_cons.mp hc with rfl | hc
          · simp at h
          · exact ⟨c, hc, h⟩
      · intro c hc
        cases hcalls : (do_write_retry buf script off count).calls with
        | nil => rw [hcalls] at hc; simp at hc
        | cons x xs =>
          rw [hcalls, List.dropLast_cons₂, List.mem_cons] at hc
          rcases hc with rfl | hc
          · simp
          · exact h2 c (by rw [hcalls]; exact hc)
    | error e =>
      simp only [do_write_retry]
      refine ⟨?_, by simp⟩
      constructor
      · intro h; simp at h
      · rintro ⟨c, hc, h⟩
        simp only [List.mem_singleton] at hc
        subst hc
        simp at h
    | accepted k =>
      simp only [do_write_retry]
      by_cases hk : min k count = count
      · simp [hk]
      · simp only [ne_eq, hk, not_false_eq_true, ↓reduceIte]
        obtain ⟨h1, h2⟩ := ih (off + min k count) (count - min k count)
        have hne : ((min k count : Nat) : Int) ≠ (count : Int) := by
          intro e; exact hk (by exact_mod_cast e)
        refine ⟨?_, ?_⟩
        · rw [h1]
          constructor
          · rintro ⟨c, hc, h⟩; exact ⟨c, List.mem_cons_of_mem _ hc, h⟩
          · rintro ⟨c, hc, h⟩
            rcases List.mem_cons.mp hc with rfl | hc
            · exact absurd h hne
            · exact ⟨c, hc, h⟩
        · intro c hc
          cases hcalls : (do_write_retry buf script (off + min k count)
              (count - min k count)).calls with
          | nil => rw [hcalls] at hc; simp at hc
          | cons x xs =>
            rw [hcalls, List.dropLast_cons₂, List.mem_cons] at hc
            rcases hc with rfl | hc
            · exact hne
            · exact h2 c (by rw [hcalls]; exact hc)

theorem do_write_retry_again (buf : List Byte) (script : List WriteAnswer) :
    ∀ (off count i : Nat) (c : WriteCall),
      (do_write_retry buf script off count).calls[i]? = some c →
      c.rv ≠ (c.count : Int) → ¬ (c.rv = -1 ∧ c.eintr = false) →
      i + 1 < script.length →
      ∃ d, (do_write_retry buf script off count).calls[i + 1]? = some d := by
  induction script with
  | nil => intro off count i c h; simp [do_write_retry] at h
  | cons a script ih =>
    intro off count i c h hfull herr hlen
    have hs : script ≠ [] := by
      intro e; rw [e] at hlen; simp at hlen
    have hnext : ∀ off1 count1 : Nat,
        ∃ d, (do_write_retry buf script off1 count1).calls[0]? = some d := by
      intro off1 count1
      have := (do_write_retry_script buf script off1 count1).2.2.2 hs
      cases hc : (do_write_retry buf script off1 count1).calls with
      | nil => exact absurd hc this
      | cons x xs => exact ⟨x, List.getElem?_cons_zero⟩
    cases a with
    | eintr =>
      simp only [do_write_retry] at h ⊢
      cases i with
      | zero => simpa using hnext off count
      | succ j =>
        simp only [List.getElem?_cons_succ] at h ⊢
        exact ih off count j c h hfull herr (by simpa using hlen)
    | error e =>
      simp only [do_write_retry] at h
      cases i with
      | zero =>
        simp only [List.getElem?_cons_zero, Option.some.injEq] at h
        subst h
        exact absurd ⟨rfl, rfl⟩ herr
      | succ j => simp at h
    | accepted k =>
      simp only [do_write_retry] at h ⊢
      by_cases hk : min k count = count
      · simp only [ne_eq, hk, not_true_eq_false, ↓reduceIte] at h
        cases i with
        | zero =>
          simp only [List.getElem?_cons_zero, Option.some.injEq] at h
          subst h
          exact absurd (by simp only [hk]) hfull
        | succ j => simp at h
      · simp only [ne_eq, hk, not_false_eq_true, ↓reduceIte] at h ⊢
        cases i with
        | zero => simpa using hnext _ _
        | succ j =>
          simp only [List.getElem?_cons_succ] at h ⊢
          exact ih _ _ j c h hfull herr (by simpa using hlen)

/-- C8: for a buffer of `count` bytes, `count` in the range of the `int`
variables, and any script of kernel answers. The `write` calls answer the
script one for one: the `i`-th call returns `-1` with `EINTR`, `-1` with
another errno, or the number of bytes taken, as the `i`-th answer says, and
sends those bytes from its offset; the answers not consumed are left. The first
call is at offset 0 for `count` bytes; after a call that took `k` bytes the
next one is at `off + k` for `count - k` bytes, after an interrupted call the
next one repeats the offset and the count, and that retry is issued whenever
an answer is left for it. `do_write` returns 0 exactly when a call took all it
was asked for, and then the bytes sent, put together, are exactly
`buf[0..count)`; it returns a negative value exactly when a call failed with
an error other than `EINTR`; either call is the last one issued; it has not
returned only when every answer of the script is consumed. The values of `off`
and `rv` stay in the range of an `int`. -/
theorem do_write_sends_everything (script : List WriteAnswer) (buf : List Byte) (count : Nat)
    (hbuf : count ≤ buf.length) (hint : count < 2147483648) :
    ((do_write script buf count).result = some 0 →
      ((do_write script buf count).calls.map (fun c => c.sent)).flatten = buf.take count ∧
      (((do_write script buf count).calls.map (fun c => c.sent)).flatten).length = count) ∧
    (∀ c ∈ (do_write script buf count).calls.head?, c.off = 0 ∧ c.count = count) ∧
    List.Chain'
      (fun a b : WriteCall =>
        (a.rv = -1 → a.eintr = true ∧ b.off = a.off ∧ b.count = a.count) ∧
        (0 ≤ a.rv → b.off = a.off + a.rv.toNat ∧ b.count = a.count - a.rv.toNat))
      (do_write script buf count).calls ∧
    (∀ (i : Nat) (c : WriteCall), (do_write script buf count).calls[i]? = some c →
      (script[i]? = some WriteAnswer.eintr ∧ c.rv = -1 ∧ c.eintr = true ∧ c.sent = []) ∨
      (∃ e : Int, script[i]? = some (WriteAnswer.error e) ∧
        c.rv = -1 ∧ c.eintr = false ∧ c.sent = []) ∨
      (∃ k : Nat, script[i]? = some (WriteAnswer.accepted k) ∧
        c.rv = ((min k c.count : Nat) : Int) ∧ c.eintr = false ∧
        c.sent = (buf.drop c.off).take (min k c.count))) ∧
    (do_write script buf count).rest =
      script.drop (do_write script buf count).calls.length ∧
    (∀ (i : Nat) (c : WriteCall), (do_write script buf count).calls[i]? = some c →
      c.rv ≠ (c.count : Int) → ¬ (c.rv = -1 ∧ c.eintr = false) →
      i + 1 < script.length →
      ∃ d, (do_write script buf count).calls[i + 1]? = some d) ∧
    ((do_write script buf count).result = some 0 ∨
      (do_write script buf count).result = some (-1) ∨
      (do_write script buf count).result = none) ∧
    ((do_write script buf count).result = some 0 ↔
      ∃ c ∈ (do_write script buf count).calls, c.rv = (c.count : Int)) ∧
    ((∃ v : Int, (do_write script buf count).result = some v ∧ v < 0) ↔
      ∃ c ∈ (do_write script buf count).calls, c.rv = -1 ∧ c.eintr = false) ∧
    ((do_write script buf count).result = none →
      (do_write script buf count).calls.length = script.length) ∧
    (∀ c ∈ (do_write script buf count).calls.dropLast,
      c.rv ≠ (c.count : Int) ∧ ¬ (c.rv = -1 ∧ c.eintr = false)) ∧
    (∀ c ∈ (do_write script buf count).calls,
      c.off + c.count = count ∧ to_int (c.off : Int) = (c.off : Int) ∧
      to_int c.rv = c.rv) := by
  unfold do_write
  obtain ⟨h1, h2, h3⟩ := do_write_retry_error buf script 0 count
  obtain ⟨s1, _, s3, _⟩ := do_write_retry_script buf script 0 count
  obtain ⟨f1, f2⟩ := do_write_retry_full buf script 0 count
  refine ⟨?_, (do_write_retry_chain buf script 0 count).1,
    (do_write_retry_chain buf script 0 count).2,
    do_write_retry_answers buf script 0 count, s1,
    do_write_retry_again buf script 0 count, h1, f1, ?_, s3,
    fun c hc => ⟨f2 c hc, h3 c hc⟩, ?_⟩
  · intro h
    have := do_write_retry_sent buf script 0 count h
    rw [List.drop_zero] at this
    refine ⟨this, ?_⟩
    rw [this, List.length_take]
    omega
  · rw [← h2]
    constructor
    · rintro ⟨v, hv, hneg⟩
      rcases h1 with h | h | h
      · rw [h] at hv; cases hv; omega
      · exact h
      · rw [h] at hv; cases hv
    · intro h
      exact ⟨-1, h, by omega⟩
  · intro c hc
    obtain ⟨e1, e2⟩ := do_write_retry_calls buf script 0 count c hc
    refine ⟨by omega, to_int_of_int_range _ (by omega) (by omega), ?_⟩
    rcases e2 with ⟨e, _⟩ | ⟨e, e', _⟩
    · rw [e]; exact to_int_of_int_range _ (by omega) (by omega)
    · exact to_int_of_int_range _ (by omega) (by omega)

theorem do_write_sends_everything_witness :
    (5 ≤ [1, 2, 3, 4, 5].length) ∧ ((5 : Nat) < 2147483648) ∧
    (do_write [WriteAnswer.eintr, WriteAnswer.accepted 2, WriteAnswer.accepted 0,
      WriteAnswer.accepted 9, WriteAnswer.error 5] [1, 2, 3, 4, 5] 5).calls =
      [⟨0, 5, -1, true, []⟩, ⟨0, 5, 2, false, [1, 2]⟩, ⟨2, 3, 0, false, []⟩,
       ⟨2, 3, 3, false, [3, 4, 5]⟩] ∧
    (do_write [WriteAnswer.eintr, WriteAnswer.accepted 2, WriteAnswer.accepted 0,
      WriteAnswer.accepted 9, WriteAnswer.error 5] [1, 2, 3, 4, 5] 5).rest =
      [WriteAnswer.error 5] ∧
    (do_write [WriteAnswer.eintr, WriteAnswer.accepted 2, WriteAnswer.accepted 0,
      WriteAnswer.accepted 9, WriteAnswer.error 5] [1, 2, 3, 4, 5] 5).result = some 0 ∧
    (do_write [WriteAnswer.eintr, WriteAnswer.accepted 2, WriteAnswer.error 5,
      WriteAnswer.accepted 9] [1, 2, 3, 4, 5] 5).result = some (-1) ∧
    (do_write [WriteAnswer.eintr, WriteAnswer.accepted 2, WriteAnswer.error 5,
      WriteAnswer.accepted 9] [1, 2, 3, 4, 5] 5).calls =
      [⟨0, 5, -1, true, []⟩, ⟨0, 5, 2, false, [1, 2]⟩, ⟨2, 3, -1, false, []⟩] ∧
    ((do_write [WriteAnswer.eintr, WriteAnswer.accepted 2, WriteAnswer.accepted 0,
        WriteAnswer.accepted 9, WriteAnswer.error 5] [1, 2, 3, 4, 5] 5).calls.map
          (fun c => c.sent)).flatten = [1, 2, 3, 4, 5].take 5 ∧
    (((do_write [WriteAnswer.eintr, WriteAnswer.accepted 2, WriteAnswer.accepted 0,
        WriteAnswer.accepted 9, WriteAnswer.error 5] [1, 2, 3, 4, 5] 5).calls.map
          (fun c => c.sent)).flatten).length = 5 :=
  ⟨by decide, by decide, by decide, by decide, by decide, by decide, by decide,
    (do_write_sends_everything [WriteAnswer.eintr, WriteAnswer.accepted 2,
      WriteAnswer.accepted 0, WriteAnswer.accepted 9, WriteAnswer.error 5]
      [1, 2, 3, 4, 5] 5 (by decide) (by decide)).1 (by decide)⟩

/-! ## `do_read` -/

theorem store_at_length (buf : List Byte) (off : Nat) (bytes : List Byte)
    (h : off + bytes.length ≤ buf.length) : (store_at buf off bytes).length = buf.length := by
  unfold store_at
  simp only [List.length_append, List.length_take, List.length_drop]
  omega

theorem store_at_take (buf : List Byte) (off : Nat) (bytes : List Byte)
    (h : off + bytes.length ≤ buf.length) :
    (store_at buf off bytes).take (off + bytes.length) = buf.take off ++ bytes := by
  unfold store_at
  rw [List.take_left']
  simp only [List.length_append, List.length_take]
  omega

theorem store_at_drop (buf : List Byte) (off : Nat) (bytes : List Byte) (n : Nat)
    (h : off + bytes.length ≤ buf.length) (hn : off + bytes.length ≤ n) :
    (store_at buf off bytes).drop n = buf.drop n := by
  unfold store_at
  have hl : (buf.take off ++ bytes).length = off + bytes.length := by
    simp only [List.length_append, List.length_take]; omega
  rw [List.drop_append_eq_append_drop, hl,
    List.drop_of_length_le (by omega), List.nil_append, List.drop_drop]
  congr 1
  omega

theorem do_read_loop_buf (count : Nat) (script : List ReadAnswer) :
    ∀ (buf : List Byte) (off : Nat), off ≤ count → count ≤ buf.length →
      (do_read_loop count script buf off).result = some 0 →
      (do_read_loop count script buf off).buf =
        buf.take off ++ ((do_read_loop count script buf off).calls.map (fun c => c.got)).flatten
          ++ buf.drop count ∧
      (((do_read_loop count script buf off).calls.map (fun c => c.got)).flatten).length =
        count - off := by
  induction script with
  | nil =>
    intro buf off hoff hcount h
    by_cases hlt : off < count
    · simp [do_read_loop, hlt] at h
    · have : off = count := by omega
      subst this
      simp [do_read_loop]
  | cons a script ih =>
    intro buf off hoff hcount h
    by_cases hlt : off < count
    · cases a with
      | eintr =>
        simp only [do_read_loop, hlt, ↓reduceIte] at h ⊢
        simpa using ih buf off hoff hcount h
      | error e => simp [do_read_loop, hlt] at h
      | data bytes =>
        simp only [do_read_loop, hlt, ↓reduceIte] at h ⊢
        have hgl : (bytes.take (count - off)).length ≤ count - off := by
          rw [List.length_take]; omega
        by_cases hz : (bytes.take (count - off)).length = 0
        · simp [hz] at h
        · simp only [hz, ↓reduceIte] at h ⊢
          have hst : off + (bytes.take (count - off)).length ≤ buf.length := by omega
          have := ih (store_at buf off (bytes.take (count - off)))
            (off + (bytes.take (count - off)).length) (by omega)
            (by rw [store_at_length _ _ _ hst]; exact hcount) h
          obtain ⟨e1, e2⟩ := this
          rw [store_at_take _ _ _ hst, store_at_drop _ _ _ _ hst (by omega)] at e1
          refine ⟨?_, ?_⟩
          · rw [e1]; simp
          · simp only [List.map_cons, List.flatten_cons, List.length_append, e2]
            omega
    · have : off = count := by omega
      subst this
      simp [do_read_loop]

theorem do_read_loop_calls (count : Nat) (script : List ReadAnswer) :
    ∀ (buf : List Byte) (off : Nat) (before : List ReadCall) (c : ReadCall)
      (after : List ReadCall),
      (do_read_loop count script buf off).calls = before ++ c :: after →
      c.off = off + ((before.map (fun b => b.got)).flatten).length ∧
      c.off < count ∧ c.asked = count - c.off ∧ c.got.length ≤ c.asked ∧
      ((c.rv = -1 ∧ c.got = []) ∨ (c.rv = (c.got.length : Int) ∧ c.eintr = false)) := by
  induction script with
  | nil =>
    intro buf off before c after h
    by_cases hlt : off < count <;> simp [do_read_loop, hlt] at h
  | cons a script ih =>
    intro buf off before c after h
    by_cases hlt : off < count
    · cases a with
      | eintr =>
        simp only [do_read_loop, hlt, ↓reduceIte] at h
        cases before with
        | nil =>
          simp only [List.nil_append, List.cons.injEq] at h
          obtain ⟨rfl, _⟩ := h
          simp [hlt]
        | cons b bs =>
          simp only [List.cons_append, List.cons.injEq] at h
          obtain ⟨rfl, h⟩ := h
          have := ih buf off bs c after h
          simpa using this
      | error e =>
        simp only [do_read_loop, hlt, ↓reduceIte] at h
        cases before with
        | nil =>
          simp only [List.nil_append, List.cons.injEq] at h
          obtain ⟨rfl, _⟩ := h
          simp [hlt]
        | cons b bs =>
          simp only [List.cons_append, List.cons.injEq] at h
          obtain ⟨_, h⟩ := h
          simp at h
      | data bytes =>
        simp only [do_read_loop, hlt, ↓reduceIte] at h
        have hgl : (bytes.take (count - off)).length ≤ count - off := by
          rw [List.length_take]; omega
        by_cases hz : (bytes.take (count - off)).length = 0
        · simp only [hz, ↓reduceIte] at h
          cases before with
          | nil =>
            simp only [List.nil_append, List.cons.injEq] at h
            obtain ⟨rfl, _⟩ := h
            refine ⟨by simp, hlt, rfl, by simp [hz], Or.inr ⟨by dsimp only; rw [hz], rfl⟩⟩
          | cons b bs =>
            simp only [List.cons_append, List.cons.injEq] at h
            obtain ⟨_, h⟩ := h
            simp at h
        · simp only [hz, ↓reduceIte] at h
          cases before with
          | nil =>
            simp only [List.nil_append, List.cons.injEq] at h
            obtain ⟨rfl, _⟩ := h
            refine ⟨by simp, hlt, rfl, hgl, Or.inr ⟨rfl, rfl⟩⟩
          | cons b bs =>
            simp only [List.cons_append, List.cons.injEq] at h
            obtain ⟨rfl, h⟩ := h
            have := ih _ _ bs c after h
            simp only [List.map_cons, List.flatten_cons, List.length_append]
            refine ⟨by omega, this.2⟩
    · simp [do_read_loop, hlt] at h

theorem do_read_loop_result (count : Nat) (script : List ReadAnswer) :
    ∀ (buf : List Byte) (off : Nat),
      ((do_read_loop count script buf off).result = some 0 ∨
       (do_read_loop count script buf off).result = some (-1) ∨
       (do_read_loop count script buf off).result = none) ∧
      ((do_read_loop count script buf off).result = some (-1) ↔
        ∃ c ∈ (do_read_loop count script buf off).calls,
          c.rv = 0 ∨ (c.rv = -1 ∧ c.eintr = false)) ∧
      (∀ c ∈ (do_read_loop count script buf off).calls.dropLast,
        ¬ (c.rv = 0 ∨ (c.rv = -1 ∧ c.eintr = false))) := by
  induction script with
  | nil =>
    intro buf off
    by_cases hlt : off < count <;> simp [do_read_loop, hlt]
  | cons a script ih =>
    intro buf off
    by_cases hlt : off < count
    · cases a with
      | eintr =>
        simp only [do_read_loop, hlt, ↓reduceIte]
        obtain ⟨h1, h2, h3⟩ := ih buf off
        refine ⟨h1, ?_, ?_⟩
        · rw [h2]; simp
        · intro c hc
          cases hcalls : (do_read_loop count script buf off).calls with
          | nil => rw [hcalls] at hc; simp at hc
          | cons x xs =>
            rw [hcalls, List.dropLast_cons₂, List.mem_cons] at hc
            rcases hc with rfl | hc
            · simp
            · exact h3 c (by rw [hcalls]; exact hc)
      | error e => simp [do_read_loop, hlt]
      | data bytes =>
        simp only [do_read_loop, hlt, ↓reduceIte]
        by_cases hz : (bytes.take (count - off)).length = 0
        · simp [hz]
        · simp only [hz, ↓reduceIte]
          obtain ⟨h1, h2, h3⟩ := ih (store_at buf off (bytes.take (count - off)))
            (off + (bytes.take (count - off)).length)
          have hnz : ((bytes.take (count - off)).length : Int) ≠ 0 := by omega
          refine ⟨h1, ?_, ?_⟩
          · rw [h2]
            constructor
            · rintro ⟨c, hc, h⟩; exact ⟨c, List.mem_cons_of_mem _ hc, h⟩
            · rintro ⟨c, hc, h⟩
              rcases List.mem_cons.mp hc with rfl | hc
              · exfalso
                rcases h with h | h
                · exact hnz h
                · have := h.1; dsimp only at this; omega
              · exact ⟨c, hc, h⟩
          · intro c hc
            cases hcalls : (do_read_loop count script
                (store_at buf off (bytes.take (count - off)))
                (off + (bytes.take (count - off)).length)).calls with
            | nil => rw [hcalls] at hc; simp at hc
            | cons x xs =>
              rw [hcalls, List.dropLast_cons₂, List.mem_cons] at hc
              rcases hc with rfl | hc
              · intro h
                rcases h with h | h
                · exact hnz h
                · have := h.1; dsimp only at this; omega
              · exact h3 c (by rw [hcalls]; exact hc)
    · simp [do_read_loop, hlt]

theorem do_read_loop_done (count : Nat) (script : List ReadAnswer) (buf : List Byte)
    (off : Nat) (h : ¬ off < count) :
    do_read_loop count script buf off = ⟨some 0, buf, [], script⟩ := by
  cases script <;> simp [do_read_loop, h]

theorem do_read_loop_script (count : Nat) (script : List ReadAnswer) :
    ∀ (buf : List Byte) (off : Nat),
      (do_read_loop count script buf off).rest =
        script.drop (do_read_loop count script buf off).calls.length ∧
      (do_read_loop count script buf off).calls.length ≤ script.length ∧
      ((do_read_loop count script buf off).result = none →
        (do_read_loop count script buf off).calls.length = script.length) ∧
      (script ≠ [] → off < count → (do_read_loop count script buf off).calls ≠ []) := by
  induction script with
  | nil =>
    intro buf off
    by_cases hlt : off < count <;> simp [do_read_loop, hlt]
  | cons a script ih =>
    intro buf off
    by_cases hlt : off < count
    · cases a with
      | eintr =>
        obtain ⟨h1, h2, h3, _⟩ := ih buf off
        simp only [do_read_loop, hlt, ↓reduceIte, List.length_cons, List.drop_succ_cons]
        exact ⟨h1, by omega, fun h => by rw [h3 h], by simp⟩
      | error e => simp [do_read_loop, hlt]
      | data bytes =>
        simp only [do_read_loop, hlt, ↓reduceIte]
        by_cases hz : (bytes.take (count - off)).length = 0
        · simp [hz]
        · simp only [hz, ↓reduceIte, List.length_cons, List.drop_succ_cons]
          obtain ⟨h1, h2, h3, _⟩ := ih (store_at buf off (bytes.take (count - off)))
            (off + (bytes.take (count - off)).length)
          exact ⟨h1, by omega, fun h => by rw [h3 h], by simp⟩
    · simp [do_read_loop, hlt]

theorem do_read_loop_answers (count : Nat) (script : List ReadAnswer) :
    ∀ (buf : List Byte) (off i : Nat) (c : ReadCall),
      (do_read_loop count script buf off).calls[i]? = some c →
      (script[i]? = some ReadAnswer.eintr ∧ c.rv = -1 ∧ c.eintr = true ∧ c.got = []) ∨
      (∃ e : Int, script[i]? = some (ReadAnswer.error e) ∧
        c.rv = -1 ∧ c.eintr = false ∧ c.got = []) ∨
      (∃ bytes : List Byte, script[i]? = some (ReadAnswer.data bytes) ∧
        c.got = bytes.take c.asked ∧ c.rv = (c.got.length : Int) ∧ c.eintr = false) := by
  induction script with
  | nil =>
    intro buf off i c h
    by_cases hlt : off < count <;> simp [do_read_loop, hlt] at h
  | cons a script ih =>
    intro buf off i c h
    by_cases hlt : off < count
    · cases a with
      | eintr =>
        simp only [do_read_loop, hlt, ↓reduceIte] at h
        cases i with
        | zero =>
          simp only [List.getElem?_cons_zero, Option.some.injEq] at h
          subst h; simp
        | succ j =>
          simp only [List.getElem?_cons_succ] at h ⊢
          exact ih buf off j c h
      | error e =>
        simp only [do_read_loop, hlt, ↓reduceIte] at h
        cases i with
        | zero =>
          simp only [List.getElem?_cons_zero, Option.some.injEq] at h
          subst h; simp
        | succ j => simp at h
      | data bytes =>
        simp only [do_read_loop, hlt, ↓reduceIte] at h
        by_cases hz : (bytes.take (count - off)).length = 0
        · simp only [hz, ↓reduceIte] at h
          cases i with
          | zero =>
            simp only [List.getElem?_cons_zero, Option.some.injEq] at h
            subst h
            refine Or.inr (Or.inr ⟨bytes, List.getElem?_cons_zero, rfl, ?_, rfl⟩)
            dsimp only; rw [hz]
          | succ j => simp at h
        · simp only [hz, ↓reduceIte] at h
          cases i with
          | zero =>
            simp only [List.getElem?_cons_zero, Option.some.injEq] at h
            subst h
            exact Or.inr (Or.inr ⟨bytes, List.getElem?_cons_zero, rfl, rfl, rfl⟩)
          | succ j =>
            simp only [List.getElem?_cons_succ] at h ⊢
            exact ih _ _ j c h
    · simp [do_read_loop, hlt] at h

theorem do_read_loop_store (count : Nat) (script : List ReadAnswer) :
    ∀ (buf : List Byte) (off : Nat), off ≤ count → count ≤ buf.length →
      (do_read_loop count script buf off).buf =
        buf.take off ++ ((do_read_loop count script buf off).calls.map (fun c => c.got)).flatten
          ++ buf.drop (off +
            (((do_read_loop count script buf off).calls.map (fun c => c.got)).flatten).length) ∧
      off + (((do_read_loop count script buf off).calls.map (fun c => c.got)).flatten).length
        ≤ count ∧
      ((do_read_loop count script buf off).result = some 0 ↔
        off + (((do_read_loop count script buf off).calls.map (fun c => c.got)).flatten).length
          = count) := by
  induction script with
  | nil =>
    intro buf off hoff hcount
    by_cases hlt : off < count
    · simp [do_read_loop, hlt]; omega
    · simp [do_read_loop, hlt]; omega
  | cons a script ih =>
    intro buf off hoff hcount
    by_cases hlt : off < count
    · cases a with
      | eintr =>
        simp only [do_read_loop, hlt, ↓reduceIte]
        simpa using ih buf off hoff hcount
      | error e =>
        simp [do_read_loop, hlt]; omega
      | data bytes =>
        simp only [do_read_loop, hlt, ↓reduceIte]
        have hgl : (bytes.take (count - off)).length ≤ count - off := by
          rw [List.length_take]; omega
        by_cases hz : (bytes.take (count - off)).length = 0
        · have hnil : bytes.take (count - off) = [] := List.length_eq_zero.mp hz
          simp only [hz, ↓reduceIte, List.map_cons, List.map_nil, List.flatten_cons,
            List.flatten_nil, List.append_nil, hnil, List.length_nil, Nat.add_zero,
            List.take_append_drop]
          refine ⟨trivial, by omega, ?_⟩
          constructor
          · intro h; simp at h
          · intro h; omega
        · simp only [hz, ↓reduceIte]
          have hst : off + (bytes.take (count - off)).length ≤ buf.length := by omega
          obtain ⟨e1, e2, e3⟩ := ih (store_at buf off (bytes.take (count - off)))
            (off + (bytes.take (count - off)).length) (by omega)
            (by rw [store_at_length _ _ _ hst]; exact hcount)
          rw [store_at_take _ _ _ hst, store_at_drop _ _ _ _ hst (by omega)] at e1
          simp only [List.map_cons, List.flatten_cons, List.length_append]
          refine ⟨?_, by omega, ?_⟩
          · rw [e1]
            simp only [List.append_assoc, Nat.add_assoc]
          · rw [e3]; omega
    · have : off = count := by omega
      subst this
      simp [do_read_loop]

theorem do_read_loop_again (count : Nat) (script : List ReadAnswer) :
    ∀ (buf : List Byte) (off i : Nat) (c : ReadCall),
      (do_read_loop count script buf off).calls[i]? = some c →
      ((c.rv = -1 ∧ c.eintr = true) ∨ (0 < c.rv ∧ c.off + c.got.length < count)) →
      i + 1 < script.length →
      ∃ d, (do_read_loop count script buf off).calls[i + 1]? = some d := by
  induction script with
  | nil =>
    intro buf off i c h
    by_cases hlt : off < count <;> simp [do_read_loop, hlt] at h
  | cons a script ih =>
    intro buf off i c h hgo hlen
    have hs : script ≠ [] := by
      intro e; rw [e] at hlen; simp at hlen
    have hnext : ∀ (buf1 : List Byte) (off1 : Nat), off1 < count →
        ∃ d, (do_read_loop count script buf1 off1).calls[0]? = some d := by
      intro buf1 off1 h1
      have := (do_read_loop_script count script buf1 off1).2.2.2 hs h1
      cases hc : (do_read_loop count script buf1 off1).calls with
      | nil => exact absurd hc this
      | cons x xs => exact ⟨x, List.getElem?_cons_zero⟩
    by_cases hlt : off < count
    · cases a with
      | eintr =>
        simp only [do_read_loop, hlt, ↓reduceIte] at h ⊢
        cases i with
        | zero => simpa using hnext buf off hlt
        | succ j =>
          simp only [List.getElem?_cons_succ] at h ⊢
          exact ih buf off j c h hgo (by simpa using hlen)
      | error e =>
        simp only [do_read_loop, hlt, ↓reduceIte] at h
        cases i with
        | zero =>
          simp only [List.getElem?_cons_zero, Option.some.injEq] at h
          subst h
          rcases hgo with ⟨_, h2⟩ | ⟨h2, _⟩
          · simp at h2
          · simp at h2
        | succ j => simp at h
      | data bytes =>
        simp only [do_read_loop, hlt, ↓reduceIte] at h ⊢
        by_cases hz : (bytes.take (count - off)).length = 0
        · simp only [hz, ↓reduceIte] at h
          cases i with
          | zero =>
            simp only [List.getElem?_cons_zero, Option.some.injEq] at h
            subst h
            rcases hgo with ⟨h2, _⟩ | ⟨h2, _⟩
            · simp at h2
            · simp at h2
          | succ j => simp at h
        · simp only [hz, ↓reduceIte] at h ⊢
          cases i with
          | zero =>
            simp only [List.getElem?_cons_zero, Option.some.injEq] at h
            subst h
            rcases hgo with ⟨h2, _⟩ | ⟨_, h2⟩
            · dsimp only at h2; omega
            · simpa using hnext _ _ h2
          | succ j =>
            simp only [List.getElem?_cons_succ] at h ⊢
            exact ih _ _ j c h hgo (by simpa using hlen)
    · simp [do_read_loop, hlt] at h

/-- C9: for a buffer of at least `count` bytes, `count` in the range of the
`int` variables, and any script of kernel answers. The `read` calls answer the
script one for one: the `i`-th call returns `-1` with `EINTR`, `-1` with
another errno, or the number of bytes delivered, as the `i`-th answer says, and
never takes more than it asked for; the answers not consumed are left. Every
call is issued with fewer than `count` bytes received so far, at the offset of
the bytes already received, and asks for `count` minus that offset; an
interrupted call delivers nothing, so the next call repeats its offset, and
after an interrupted call or a short delivery the next call is issued whenever
an answer is left for it. The bytes delivered are stored in arrival order from
the start of the buffer and the rest of the buffer is untouched. `do_read`
returns 0 exactly when the bytes delivered number `count`, and then they are
`buf[0..count)`; it returns `-1` exactly when a call returned 0 or failed with
an error other than `EINTR`, and such a call is the last one issued; it has not
returned only when every answer of the script is consumed. For `count = 0` it
returns 0 without reading. The values of `off` and `rv` stay in the range of an
`int`. -/
theorem do_read_exact_count (script : List ReadAnswer) (buf : List Byte) (count : Nat)
    (hbuf : count ≤ buf.length) (hint : count < 2147483648) :
    ((do_read script buf count).result = some 0 →
      (((do_read script buf count).calls.map (fun c => c.got)).flatten).length = count ∧
      (do_read script buf count).buf.take count =
        ((do_read script buf count).calls.map (fun c => c.got)).flatten ∧
      (do_read script buf count).buf.drop count = buf.drop count) ∧
    ((do_read script buf count).buf =
      ((do_read script buf count).calls.map (fun c => c.got)).flatten ++
        buf.drop (((do_read script buf count).calls.map (fun c => c.got)).flatten).length ∧
      (((do_read script buf count).calls.map (fun c => c.got)).flatten).length ≤ count) ∧
    ((do_read script buf count).result = some 0 ↔
      (((do_read script buf count).calls.map (fun c => c.got)).flatten).length = count) ∧
    (∀ (before : List ReadCall) (c : ReadCall) (after : List ReadCall),
      (do_read script buf count).calls = before ++ c :: after →
      c.off = ((before.map (fun b => b.got)).flatten).length ∧
      c.off < count ∧ c.asked = count - c.off ∧ c.got.length ≤ c.asked ∧
      ((c.rv = -1 ∧ c.got = []) ∨ (c.rv = (c.got.length : Int) ∧ c.eintr = false))) ∧
    (∀ (before : List ReadCall) (c d : ReadCall) (after : List ReadCall),
      (do_read script buf count).calls = before ++ c :: d :: after →
      (c.rv = -1 → c.eintr = true ∧ d.off = c.off) ∧
      (0 ≤ c.rv → d.off = c.off + c.rv.toNat)) ∧
    (∀ (i : Nat) (c : ReadCall), (do_read script buf count).calls[i]? = some c →
      (script[i]? = some ReadAnswer.eintr ∧ c.rv = -1 ∧ c.eintr = true ∧ c.got = []) ∨
      (∃ e : Int, script[i]? = some (ReadAnswer.error e) ∧
        c.rv = -1 ∧ c.eintr = false ∧ c.got = []) ∨
      (∃ bytes : List Byte, script[i]? = some (ReadAnswer.data bytes) ∧
        c.got = bytes.take c.asked ∧ c.rv = (c.got.length : Int) ∧ c.eintr = false)) ∧
    (do_read script buf count).rest =
      script.drop (do_read script buf count).calls.length ∧
    (∀ (i : Nat) (c : ReadCall), (do_read script buf count).calls[i]? = some c →
      ((c.rv = -1 ∧ c.eintr = true) ∨ (0 < c.rv ∧ c.off + c.got.length < count)) →
      i + 1 < script.length →
      ∃ d, (do_read script buf count).calls[i + 1]? = some d) ∧
    ((do_read script buf count).result = some 0 ∨
      (do_read script buf count).result = some (-1) ∨
      (do_read script buf count).result = none) ∧
    ((do_read script buf count).result = some (-1) ↔
      ∃ c ∈ (do_read script buf count).calls, c.rv = 0 ∨ (c.rv = -1 ∧ c.eintr = false)) ∧
    ((do_read script buf count).result = none →
      (do_read script buf count).calls.length = script.length) ∧
    (∀ c ∈ (do_read script buf count).calls.dropLast,
      ¬ (c.rv = 0 ∨ (c.rv = -1 ∧ c.eintr = false))) ∧
    (count = 0 →
      (do_read script buf count).result = some 0 ∧ (do_read script buf count).calls = [] ∧
      (do_read script buf count).buf = buf ∧ (do_read script buf count).rest = script) ∧
    (∀ c ∈ (do_read script buf count).calls,
      to_int (c.off : Int) = (c.off : Int) ∧ to_int c.rv = c.rv) := by
  unfold do_read
  obtain ⟨h1, h2, h3⟩ := do_read_loop_result count script buf 0
  obtain ⟨s1, _, s3, _⟩ := do_read_loop_script count script buf 0
  obtain ⟨b1, b2, b3⟩ := do_read_loop_store count script buf 0 (by omega) hbuf
  simp only [List.take_zero, List.nil_append, Nat.zero_add] at b1 b2 b3
  have hsplit : ∀ (before : List ReadCall) (c : ReadCall) (after : List ReadCall),
      (do_read_loop count script buf 0).calls = before ++ c :: after →
      c.off = ((before.map (fun b => b.got)).flatten).length ∧
      c.off < count ∧ c.asked = count - c.off ∧ c.got.length ≤ c.asked ∧
      ((c.rv = -1 ∧ c.got = []) ∨ (c.rv = (c.got.length : Int) ∧ c.eintr = false)) := by
    intro before c after h
    have := do_read_loop_calls count script buf 0 before c after h
    simpa using this
  refine ⟨?_, ⟨b1, b2⟩, b3, hsplit, ?_, do_read_loop_answers count script buf 0, s1,
    do_read_loop_again count script buf 0, h1, h2, s3, h3, ?_, ?_⟩
  · intro h
    obtain ⟨e1, e2⟩ := do_read_loop_buf count script buf 0 (by omega) hbuf h
    simp only [List.take_zero, List.nil_append, Nat.sub_zero] at e1 e2
    refine ⟨e2, ?_, ?_⟩
    · rw [e1, List.take_left' e2]
    · rw [e1, List.drop_left' e2]
  · intro before c d after h
    have hc := hsplit before c (d :: after) h
    have hd := hsplit (before ++ [c]) d after (by simpa using h)
    have hmem : c ∈ (do_read_loop count script buf 0).calls.dropLast := by
      rw [h]
      have : before ++ c :: d :: after = (before ++ [c]) ++ (d :: after) := by simp
      rw [this, List.dropLast_append_of_ne_nil _ (by simp)]
      simp
    have hlast := h3 c hmem
    simp only [List.map_append, List.flatten_append, List.length_append, List.map_cons,
      List.map_nil, List.flatten_cons, List.flatten_nil, List.append_nil] at hd
    constructor
    · intro hrv
      rcases hc.2.2.2.2 with ⟨_, hg⟩ | ⟨hg, _⟩
      · refine ⟨?_, by rw [hd.1, hc.1, hg]; simp⟩
        by_contra hne
        exact hlast (Or.inr ⟨hrv, by simpa using hne⟩)
      · omega
    · intro hrv
      rcases hc.2.2.2.2 with ⟨hneg, _⟩ | ⟨hg, _⟩
      · omega
      · rw [hd.1, hc.1, hg, Int.toNat_ofNat]
  · intro h0
    subst h0
    rw [do_read_loop_done 0 script buf 0 (by omega)]
    exact ⟨rfl, rfl, rfl, rfl⟩
  · intro c hc
    obtain ⟨before, after, hba⟩ := List.append_of_mem hc
    obtain ⟨_, g2, g3, g4, g5⟩ := hsplit before c after hba
    refine ⟨to_int_of_int_range _ (by omega) (by omega), ?_⟩
    rcases g5 with ⟨e, _⟩ | ⟨e, _⟩
    · rw [e]; exact to_int_of_int_range _ (by omega) (by omega)
    · rw [e]; exact to_int_of_int_range _ (by omega) (by omega)

theorem do_read_exact_count_witness :
    (5 ≤ [0, 0, 0, 0, 0, 9].length) ∧ ((5 : Nat) < 2147483648) ∧
    (do_read [ReadAnswer.eintr, ReadAnswer.data [1, 2], ReadAnswer.eintr,
      ReadAnswer.data [3, 4, 5, 6], ReadAnswer.data [7]] [0, 0, 0, 0, 0, 9] 5).calls =
      [⟨0, 5, -1, true, []⟩, ⟨0, 5, 2, false, [1, 2]⟩, ⟨2, 3, -1, true, []⟩,
       ⟨2, 3, 3, false, [3, 4, 5]⟩] ∧
    (do_read [ReadAnswer.eintr, ReadAnswer.data [1, 2], ReadAnswer.eintr,
      ReadAnswer.data [3, 4, 5, 6], ReadAnswer.data [7]] [0, 0, 0, 0, 0, 9] 5).buf =
      [1, 2, 3, 4, 5, 9] ∧
    (do_read [ReadAnswer.eintr, ReadAnswer.data [1, 2], ReadAnswer.eintr,
      ReadAnswer.data [3, 4, 5, 6], ReadAnswer.data [7]] [0, 0, 0, 0, 0, 9] 5).rest =
      [ReadAnswer.data [7]] ∧
    (do_read [ReadAnswer.data [1, 2], ReadAnswer.data [], ReadAnswer.data [3, 4, 5]]
      [0, 0, 0, 0, 0, 9] 5).result = some (-1) ∧
    (do_read [ReadAnswer.data [1, 2], ReadAnswer.error 5, ReadAnswer.data [3, 4, 5]]
      [0, 0, 0, 0, 0, 9] 5).result = some (-1) ∧
    (do_read [ReadAnswer.eintr, ReadAnswer.data [1, 2], ReadAnswer.eintr,
      ReadAnswer.data [3, 4, 5, 6], ReadAnswer.data [7]] [0, 0, 0, 0, 0, 9] 5).result =
      some 0 ∧
    ((((do_read [ReadAnswer.eintr, ReadAnswer.data [1, 2], ReadAnswer.eintr,
        ReadAnswer.data [3, 4, 5, 6], ReadAnswer.data [7]] [0, 0, 0, 0, 0, 9] 5).calls.map
          (fun c => c.got)).flatten).length = 5 ∧
      (do_read [ReadAnswer.eintr, ReadAnswer.data [1, 2], ReadAnswer.eintr,
        ReadAnswer.data [3, 4, 5, 6], ReadAnswer.data [7]] [0, 0, 0, 0, 0, 9] 5).buf.take 5 =
        ((do_read [ReadAnswer.eintr, ReadAnswer.data [1, 2], ReadAnswer.eintr,
          ReadAnswer.data [3, 4, 5, 6], ReadAnswer.data [7]] [0, 0, 0, 0, 0, 9] 5).calls.map
            (fun c => c.got)).flatten ∧
      (do_read [ReadAnswer.eintr, ReadAnswer.data [1, 2], ReadAnswer.eintr,
        ReadAnswer.data [3, 4, 5, 6], ReadAnswer.data [7]] [0, 0, 0, 0, 0, 9] 5).buf.drop 5 =
        [0, 0, 0, 0, 0, 9].drop 5) :=
  ⟨by decide, by decide, by decide, by decide, by decide, by decide, by decide, by decide,
    (do_read_exact_count [ReadAnswer.eintr, ReadAnswer.data [1, 2], ReadAnswer.eintr,
      ReadAnswer.data [3, 4, 5, 6], ReadAnswer.data [7]] [0, 0, 0, 0, 0, 9] 5 (by decide)
      (by decide)).1 (by decide)⟩

/-! ## Reactor table -/

theorem getD_append_length {α : Type} (l : List α) (x : α) (r : List α) (d : α) :
    (l ++ x :: r).getD l.length d = x := by
  induction l with
  | nil => rfl
  | cons a l ih => simpa [List.getD_cons_succ] using ih

theorem set_append_length {α : Type} (l : List α) (x y : α) (r : List α) :
    (l ++ x :: r).set l.length y = l ++ y :: r := by
  induction l with
  | nil => rfl
  | cons a l ih => simp [ih]

theorem init_loop_closed (n : Nat) :
    ∀ (old : List Client) (oldp : List Pollfd), old.length = oldp.length →
      for_range n old.length
        (fun i (t : List Client × List Pollfd) =>
          (t.1.set i { fd := -1, workfn := none, deadfn := none },
           t.2.set i { (t.2.getD i fresh_pollfd) with fd := -1, revents := 0 }))
        (old ++ List.replicate n fresh_client, oldp ++ List.replicate n fresh_pollfd) =
      (old ++ List.replicate n ⟨-1, none, none⟩, oldp ++ List.replicate n ⟨-1, 0, 0⟩) := by
  induction n with
  | zero => intro old oldp _; rfl
  | succ n ih =>
    intro old oldp hlen
    rw [for_range]
    have h1 : (old ++ List.replicate (n + 1) fresh_client).set old.length
        ({ fd := -1, workfn := none, deadfn := none } : Client) =
        (old ++ [⟨-1, none, none⟩]) ++ List.replicate n fresh_client := by
      rw [List.replicate_succ, set_append_length]
      simp
    have h2 : (oldp ++ List.replicate (n + 1) fresh_pollfd).set old.length
        ({ ((oldp ++ List.replicate (n + 1) fresh_pollfd).getD old.length fresh_pollfd) with
            fd := -1, revents := 0 } : Pollfd) =
        (oldp ++ [⟨-1, 0, 0⟩]) ++ List.replicate n fresh_pollfd := by
      rw [hlen, List.replicate_succ, getD_append_length, set_append_length]
      simp [fresh_pollfd]
    dsimp only
    rw [h1, h2]
    have := ih (old ++ [⟨-1, none, none⟩]) (oldp ++ [⟨-1, 0, 0⟩]) (by simp [hlen])
    simp only [List.length_append, List.length_singleton] at this
    rw [this]
    simp [List.replicate_succ]

theorem realloc_table_grow {α : Type} (junk : α) (old : List α) (k : Nat) :
    realloc_table junk (some old) (old.length + k) = old ++ List.replicate k junk := by
  unfold realloc_table
  simp only [Option.getD_some]
  rw [List.take_append, List.take_replicate]
  congr 2
  omega

theorem client_alloc_null (st : Daemon) (hc : st.client = none) (hs : st.client_size = 0) :
    client_alloc st =
      { st with
        client := some (List.replicate CLIENT_NALLOC ⟨-1, none, none⟩)
        pollfd := some (List.replicate CLIENT_NALLOC ⟨-1, 0, 0⟩)
        client_size := CLIENT_NALLOC } := by
  unfold client_alloc
  simp only [hc, hs]
  have h := init_loop_closed CLIENT_NALLOC [] [] rfl
  simp only [List.length_nil, List.nil_append] at h
  have e1 : realloc_table fresh_client none CLIENT_NALLOC =
      List.replicate CLIENT_NALLOC fresh_client := by
    simp [realloc_table]
  have e2 : realloc_table fresh_pollfd none CLIENT_NALLOC =
      List.replicate CLIENT_NALLOC fresh_pollfd := by
    simp [realloc_table]
  rw [e1, e2, h]
  simp

theorem client_alloc_grow (st : Daemon) (c : List Client) (p : List Pollfd)
    (hc : st.client = some c) (hp : st.pollfd = some p)
    (hcl : c.length = st.client_size) (hpl : p.length = st.client_size) :
    client_alloc st =
      { st with
        client := some (c ++ List.replicate CLIENT_NALLOC ⟨-1, none, none⟩)
        pollfd := some (p ++ List.replicate CLIENT_NALLOC ⟨-1, 0, 0⟩)
        client_size := st.client_size + CLIENT_NALLOC } := by
  unfold client_alloc
  simp only [hc, hp]
  have h := init_loop_closed CLIENT_NALLOC c p (by omega)
  rw [← hcl, realloc_table_grow]
  rw [hcl, ← hpl, realloc_table_grow, hpl, ← hcl, h]

theorem scan_free_found (cl : List Client) (m : Nat)
    (hused : ∀ i, i < m → (cl.getD i fresh_client).fd ≠ -1)
    (hfree : (cl.getD m fresh_client).fd = -1) :
    ∀ n lo : Nat, lo ≤ m → m < lo + n → scan_free cl n lo = some m := by
  intro n
  induction n with
  | zero => intro lo h1 h2; omega
  | succ n ih =>
    intro lo h1 h2
    rw [scan_free]
    by_cases hlo : lo = m
    · subst hlo; rw [if_pos hfree]
    · rw [if_neg (hused lo (by omega))]
      exact ih (lo + 1) (by omega) (by omega)

theorem scan_free_none (cl : List Client) :
    ∀ n lo : Nat, (∀ i, lo ≤ i → i < lo + n → (cl.getD i fresh_client).fd ≠ -1) →
      scan_free cl n lo = none := by
  intro n
  induction n with
  | zero => intro lo _; rfl
  | succ n ih =>
    intro lo h
    rw [scan_free, if_neg (h lo (by omega) (by omega))]
    exact ih (lo + 1) (fun i h1 h2 => h i (by omega) (by omega))

theorem slots_used (regs : List Registration) (hfd : ∀ r ∈ regs, r.fd ≠ -1)
    (rest : List Client) (i : Nat) (hi : i < regs.length) :
    ((regs.map slot_of ++ rest).getD i fresh_client).fd ≠ -1 := by
  rw [List.getD_eq_getElem?_getD, List.getElem?_append_left (by simpa using hi)]
  simp only [List.getElem?_map, List.getElem?_eq_getElem hi, Option.map_some',
    Option.getD_some]
  exact hfd _ (List.getElem_mem _)

theorem fill_slot (regs : List Registration) (hfd : ∀ r ∈ regs, r.fd ≠ -1)
    (st : Daemon) (k : Nat) (r : Registration) (fuel : Nat)
    (hc : st.client = some (regs.map slot_of ++ List.replicate (k + 1) ⟨-1, none, none⟩))
    (hp : st.pollfd = some (regs.map poll_of ++ List.replicate (k + 1) ⟨-1, 0, 0⟩))
    (hs : st.client_size = regs.length + (k + 1)) :
    client_add_again r.fd r.workfn r.deadfn (fuel + 1) st =
      some (regs.length,
        { st with
          client := some ((regs ++ [r]).map slot_of ++ List.replicate k ⟨-1, none, none⟩)
          pollfd := some ((regs ++ [r]).map poll_of ++ List.replicate k ⟨-1, 0, 0⟩)
          client_maxi :=
            if (regs.length : Int) > st.client_maxi then (regs.length : Int)
            else st.client_maxi }) := by
  have hscan : scan_free (st.client.getD []) st.client_size 0 = some regs.length := by
    rw [hc, hs, Option.getD_some]
    apply scan_free_found
    · intro i hi; exact slots_used regs hfd _ i hi
    · have := getD_append_length (regs.map slot_of) (⟨-1, none, none⟩ : Client)
        (List.replicate k ⟨-1, none, none⟩) fresh_client
      rw [List.length_map] at this
      rw [List.replicate_succ, this]
    · omega
    · omega
  rw [client_add_again, hscan]
  simp only [hc, hp, Option.map_some']
  have e1 := set_append_length (regs.map slot_of) (⟨-1, none, none⟩ : Client) (slot_of r)
    (List.replicate k ⟨-1, none, none⟩)
  have e2 := getD_append_length (regs.map poll_of) (⟨-1, 0, 0⟩ : Pollfd)
    (List.replicate k ⟨-1, 0, 0⟩) fresh_pollfd
  have e3 := set_append_length (regs.map poll_of) (⟨-1, 0, 0⟩ : Pollfd) (poll_of r)
    (List.replicate k ⟨-1, 0, 0⟩)
  rw [List.length_map] at e1 e2 e3
  rw [List.replicate_succ, List.replicate_succ, e2]
  have e1' : (regs.map slot_of ++ (⟨-1, none, none⟩ : Client) ::
        List.replicate k ⟨-1, none, none⟩).set regs.length
      { fd := r.fd, workfn := r.workfn, deadfn := deadfn_or_default r.deadfn } =
      (regs ++ [r]).map slot_of ++ List.replicate k ⟨-1, none, none⟩ := by
    change (regs.map slot_of ++ (⟨-1, none, none⟩ : Client) ::
        List.replicate k ⟨-1, none, none⟩).set regs.length (slot_of r) = _
    rw [e1]; simp
  have e3' : (regs.map poll_of ++ (⟨-1, 0, 0⟩ : Pollfd) ::
        List.replicate k ⟨-1, 0, 0⟩).set regs.length
      (⟨r.fd, POLLIN, 0⟩ : Pollfd) =
      (regs ++ [r]).map poll_of ++ List.replicate k ⟨-1, 0, 0⟩ := by
    change (regs.map poll_of ++ (⟨-1, 0, 0⟩ : Pollfd) ::
        List.replicate k ⟨-1, 0, 0⟩).set regs.length (poll_of r) = _
    rw [e3]; simp
  rw [e1', e3']

theorem client_add_step (fuel : Nat) (hfuel : 2 ≤ fuel) (regs : List Registration)
    (hfd : ∀ r ∈ regs, r.fd ≠ -1) (st : Daemon) (h : reactor_holds regs st)
    (r : Registration) :
    ∃ st1, client_add fuel st r.fd r.workfn r.deadfn = some (regs.length, st1) ∧
      reactor_holds (regs ++ [r]) st1 := by
  obtain ⟨hs, hm, hnil, hcons⟩ := h
  obtain ⟨f, rfl⟩ : ∃ f, fuel = f + 2 := ⟨fuel - 2, by omega⟩
  by_cases hr : regs = []
  · subst hr
    obtain ⟨hc, hp⟩ := hnil rfl
    have hs0 : st.client_size = 0 := by simpa [CLIENT_NALLOC] using hs
    have halloc := client_alloc_null st hc hs0
    have hfill := fill_slot [] (by simp) (client_alloc st) 31 r (f + 1)
      (by rw [halloc]; rfl) (by rw [halloc]; rfl) (by rw [halloc]; rfl)
    have hadd : client_add (f + 2) st r.fd r.workfn r.deadfn =
        client_add_again r.fd r.workfn r.deadfn (f + 2) (client_alloc st) := by
      unfold client_add; rw [hc]; rfl
    rw [hfill] at hadd
    refine ⟨_, hadd, ?_⟩
    · refine ⟨?_, ?_, by simp, fun _ => ⟨?_, ?_⟩⟩
      · rw [halloc]; simp [CLIENT_NALLOC]
      · rw [halloc]; simp [hm]
      · rw [halloc]; simp [CLIENT_NALLOC]
      · rw [halloc]; simp [CLIENT_NALLOC]
  · obtain ⟨hc, hp⟩ := hcons hr
    have hpos : 0 < regs.length := List.length_pos.mpr hr
    have hsz : st.client_size = 32 * ((regs.length + 31) / 32) := by
      simpa [CLIENT_NALLOC] using hs
    have hmaxi : (if (regs.length : Int) > st.client_maxi then (regs.length : Int)
        else st.client_maxi) = (((regs ++ [r]).length - 1 : Nat) : Int) := by
      rw [hm, List.length_append, List.length_singleton, Nat.add_sub_cancel]
      rw [if_pos (by omega)]
    by_cases hlt : regs.length < st.client_size
    · obtain ⟨k, hk⟩ : ∃ k, st.client_size - regs.length = k + 1 :=
        ⟨st.client_size - regs.length - 1, by omega⟩
      have hfill := fill_slot regs hfd st k r (f + 1) (by rw [hc, hk]) (by rw [hp, hk])
        (by omega)
      have hadd : client_add (f + 2) st r.fd r.workfn r.deadfn =
          client_add_again r.fd r.workfn r.deadfn (f + 2) st := by
        unfold client_add; rw [hc]; rfl
      rw [hfill] at hadd
      refine ⟨_, hadd, ?_⟩
      · have hk' : st.client_size - (regs ++ [r]).length = k := by
          rw [List.length_append, List.length_singleton]; omega
        refine ⟨?_, hmaxi, by simp, fun _ => ⟨?_, ?_⟩⟩
        · simp only [CLIENT_NALLOC, List.length_append, List.length_singleton]
          omega
        · simp only [hk']
        · simp only [hk']
    · have heq : st.client_size = regs.length := by omega
      have hscan : scan_free (st.client.getD []) st.client_size 0 = none := by
        rw [hc, Option.getD_some, heq]
        apply scan_free_none
        intro i _ hi
        exact slots_used regs hfd _ i (by omega)
      have hc' : st.client = some (regs.map slot_of) := by
        rw [hc, heq]; simp
      have hp' : st.pollfd = some (regs.map poll_of) := by
        rw [hp, heq]; simp
      have halloc := client_alloc_grow st _ _ hc' hp' (by simp [heq]) (by simp [heq])
      have hfill := fill_slot regs hfd (client_alloc st) 31 r f
        (by rw [halloc]; rfl) (by rw [halloc]; rfl)
        (by rw [halloc]; simp only [CLIENT_NALLOC]; omega)
      have hadd : client_add (f + 2) st r.fd r.workfn r.deadfn =
          client_add_again r.fd r.workfn r.deadfn (f + 1) (client_alloc st) := by
        unfold client_add
        rw [hc]
        simp only [Option.isNone_some, Bool.false_eq_true, ↓reduceIte]
        rw [client_add_again, hscan]
      rw [hfill] at hadd
      refine ⟨_, hadd, ?_⟩
      · have hcm : (client_alloc st).client_maxi = st.client_maxi := by rw [halloc]
        have hcs : (client_alloc st).client_size = regs.length + 32 := by
          rw [halloc]; simp only [CLIENT_NALLOC]; omega
        refine ⟨?_, by rw [hcm]; exact hmaxi, by simp, fun _ => ⟨?_, ?_⟩⟩
        · simp only [hcs, CLIENT_NALLOC, List.length_append, List.length_singleton]
          omega
        · simp only [hcs, List.length_append, List.length_singleton]
          have : regs.length + 32 - (regs.length + 1) = 31 := by omega
          rw [this]
        · simp only [hcs, List.length_append, List.length_singleton]
          have : regs.length + 32 - (regs.length + 1) = 31 := by omega
          rw [this]

theorem client_add_all_from (fuel : Nat) (hfuel : 2 ≤ fuel) (rs : List Registration) :
    ∀ (regs : List Registration) (st : Daemon),
      (∀ r ∈ regs ++ rs, r.fd ≠ -1) → reactor_holds regs st →
      ∃ st1, client_add_all fuel rs st = some (List.range' regs.length rs.length, st1) ∧
        reactor_holds (regs ++ rs) st1 := by
  induction rs with
  | nil => intro regs st _ h; exact ⟨st, rfl, by simpa using h⟩
  | cons r rs ih =>
    intro regs st hfd h
    obtain ⟨st1, h1, h2⟩ := client_add_step fuel hfuel regs
      (fun x hx => hfd x (List.mem_append_left _ hx)) st h r
    obtain ⟨st2, h3, h4⟩ := ih (regs ++ [r]) st1 (by simpa using hfd) h2
    refine ⟨st2, ?_, by simpa using h4⟩
    rw [client_add_all, h1]
    simp only
    rw [h3]
    simp [List.range'_succ]

theorem reactor_holds_empty (st0 : Daemon) (hc : st0.client = none) (hp : st0.pollfd = none)
    (hs : st0.client_size = 0) (hm : st0.client_maxi = 0) : reactor_holds [] st0 := by
  refine ⟨by simp [hs], by simp [hm], fun _ => ⟨hc, hp⟩, fun h => absurd rfl h⟩

theorem client_add_prefix (fuel : Nat) (hfuel : 2 ≤ fuel) (st0 : Daemon)
    (h0 : reactor_holds [] st0) (regs : List Registration) (hfd : ∀ r ∈ regs, r.fd ≠ -1) :
    ∃ st : Daemon, client_add_all fuel regs st0 = some (List.range regs.length, st) ∧
      reactor_holds regs st := by
  obtain ⟨st, h1, h2⟩ := client_add_all_from fuel hfuel regs [] st0 (by simpa using hfd) h0
  refine ⟨st, ?_, by simpa using h2⟩
  rw [h1, List.range_eq_range']
  simp

/-- C7: from the empty table (`client` and `pollfd` null, `client_size` and
`client_maxi` zero), `n` consecutive `client_add` calls with descriptors other
than `-1` return the ids `0, 1, ..., n-1` in that order and leave
`client_size = 32 * ceil(n / 32)`; every slot `i < n` holds the descriptor and
callbacks of the `i`-th call in `client[i]` (a null `deadfn` stored as
`client_dead`) and its descriptor with `POLLIN` in `pollfd[i]`, inside the
table and with `i ≤ client_maxi = n - 1`; the slots from `n` on are free. The
table size after the first `k` calls is `32 * ceil(k / 32)`: for `n = 40` it is
32 up to the 32nd call and 64 from the 33rd on. -/
theorem client_add_growth (fuel : Nat) (hfuel : 2 ≤ fuel) (st0 : Daemon)
    (hc : st0.client = none) (hp : st0.pollfd = none)
    (hs : st0.client_size = 0) (hm : st0.client_maxi = 0)
    (regs : List Registration) (hfd : ∀ r ∈ regs, r.fd ≠ -1) :
    ∃ st : Daemon,
      client_add_all fuel regs st0 = some (List.range regs.length, st) ∧
      st.client_size = 32 * ((regs.length + 31) / 32) ∧
      (regs ≠ [] →
        (st.client.getD []).length = st.client_size ∧
        (st.pollfd.getD []).length = st.client_size) ∧
      (∀ i (hi : i < regs.length),
        (st.client.getD [])[i]? =
          some ⟨regs[i].fd, regs[i].workfn, deadfn_or_default regs[i].deadfn⟩ ∧
        (st.pollfd.getD [])[i]? = some ⟨regs[i].fd, POLLIN, 0⟩ ∧
        i < st.client_size ∧ (i : Int) ≤ st.client_maxi ∧
        st.client_maxi = (regs.length : Int) - 1) ∧
      (∀ i, regs.length ≤ i → i < st.client_size →
        ((st.client.getD [])[i]?).map (fun c => c.fd) = some (-1)) ∧
      (∀ k, k ≤ regs.length →
        ∃ stk : Daemon,
          client_add_all fuel (regs.take k) st0 = some (List.range k, stk) ∧
          stk.client_size = 32 * ((k + 31) / 32)) ∧
      (regs.length = 40 → ∀ k, k ≤ 40 →
        ∃ stk : Daemon,
          client_add_all fuel (regs.take k) st0 = some (List.range k, stk) ∧
          stk.client_size = if k = 0 then 0 else if k ≤ 32 then 32 else 64) := by
  have h0 := reactor_holds_empty st0 hc hp hs hm
  have hpre : ∀ k, k ≤ regs.length →
      ∃ stk : Daemon,
        client_add_all fuel (regs.take k) st0 = some (List.range k, stk) ∧
        stk.client_size = 32 * ((k + 31) / 32) := by
    intro k hk
    obtain ⟨stk, e1, e2⟩ := client_add_prefix fuel hfuel st0 h0 (regs.take k)
      (fun r hr => hfd r (List.mem_of_mem_take hr))
    have hl : (regs.take k).length = k := by rw [List.length_take]; omega
    rw [hl] at e1
    refine ⟨stk, e1, ?_⟩
    have := e2.1
    rw [hl] at this
    simpa [CLIENT_NALLOC] using this
  obtain ⟨st, h1, hsz, hmaxi, _, hcons⟩ := client_add_prefix fuel hfuel st0 h0 regs hfd
  have hsz' : st.client_size = 32 * ((regs.length + 31) / 32) := by
    simpa [CLIENT_NALLOC] using hsz
  refine ⟨st, h1, hsz', ?_, ?_, ?_, hpre, ?_⟩
  · intro hne
    obtain ⟨e1, e2⟩ := hcons hne
    rw [e1, e2]
    simp only [Option.getD_some, List.length_append, List.length_map, List.length_replicate]
    omega
  · intro i hi
    have hne : regs ≠ [] := by intro e; rw [e] at hi; simp at hi
    obtain ⟨e1, e2⟩ := hcons hne
    rw [e1, e2]
    simp only [Option.getD_some]
    rw [List.getElem?_append_left (by simpa using hi),
      List.getElem?_append_left (by simpa using hi)]
    simp only [List.getElem?_map, List.getElem?_eq_getElem hi, Option.map_some']
    refine ⟨rfl, rfl, by omega, by rw [hmaxi]; omega, by rw [hmaxi]; omega⟩
  · intro i hi1 hi2
    have hne : regs ≠ [] := by
      intro e; rw [e] at hsz'; simp at hsz'; omega
    obtain ⟨e1, _⟩ := hcons hne
    rw [e1]
    simp only [Option.getD_some]
    rw [List.getElem?_append_right (by simpa using hi1)]
    rw [List.getElem?_replicate]
    simp only [List.length_map]
    rw [if_pos (by omega)]
    rfl
  · intro h40 k hk
    obtain ⟨stk, e1, e2⟩ := hpre k (by omega)
    refine ⟨stk, e1, ?_⟩
    rw [e2]
    split_ifs <;> omega

theorem client_add_growth_witness :
    (2 ≤ 2) ∧ (initial_daemon 4).client = none ∧ (initial_daemon 4).pollfd = none ∧
    (initial_daemon 4).client_size = 0 ∧ (initial_daemon 4).client_maxi = 0 ∧
    (∀ r ∈ forty_regs, r.fd ≠ -1) ∧
    (∃ st : Daemon,
      client_add_all 2 forty_regs (initial_daemon 4) = some (List.range forty_regs.length, st) ∧
      st.client_size = 32 * ((forty_regs.length + 31) / 32) ∧
      (forty_regs ≠ [] →
        (st.client.getD []).length = st.client_size ∧
        (st.pollfd.getD []).length = st.client_size) ∧
      (∀ i (hi : i < forty_regs.length),
        (st.client.getD [])[i]? =
          some ⟨forty_regs[i].fd, forty_regs[i].workfn, deadfn_or_default forty_regs[i].deadfn⟩ ∧
        (st.pollfd.getD [])[i]? = some ⟨forty_regs[i].fd, POLLIN, 0⟩ ∧
        i < st.client_size ∧ (i : Int) ≤ st.client_maxi ∧
        st.client_maxi = (forty_regs.length : Int) - 1) ∧
      (∀ i, forty_regs.length ≤ i → i < st.client_size →
        ((st.client.getD [])[i]?).map (fun c => c.fd) = some (-1)) ∧
      (∀ k, k ≤ forty_regs.length →
        ∃ stk : Daemon,
          client_add_all 2 (forty_regs.take k) (initial_daemon 4) = some (List.range k, stk) ∧
          stk.client_size = 32 * ((k + 31) / 32)) ∧
      (forty_regs.length = 40 → ∀ k, k ≤ 40 →
        ∃ stk : Daemon,
          client_add_all 2 (forty_regs.take k) (initial_daemon 4) = some (List.range k, stk) ∧
          stk.client_size = if k = 0 then 0 else if k ≤ 32 then 32 else 64)) :=
  ⟨by decide, rfl, rfl, rfl, rfl, by decide,
    client_add_growth 2 (by decide) (initial_daemon 4) rfl rfl rfl rfl forty_regs
      (by decide)⟩

/-! ## `do_domain_members` -/

/-- C2, failing input: a `DOMAIN_MEMBERS` request with `max = -1` while the
domain `"default"` has five members. `member_count` becomes `-1` and the
length handed to `do_reply` is `-sizeof(struct fenced_node)` (here `-4`): it
is negative and not `count * sizeof(struct fenced_node)` for any `count` from
0 to 5. `do_reply` then allocates a block shorter than the header it stores,
and the run leaves defined behaviour. -/
theorem domain_members_len_negative :
    find_fd (sample_daemon 4) default_name = some ⟨default_name⟩ ∧
    domain_members_out (sample_env 4 five_members) (sample_daemon 4) (-1) =
      (-E2BIG, some five_members, -1) ∧
    domain_members_len (sample_env 4 five_members) (sample_daemon 4) (-1) = -4 ∧
    domain_members_len (sample_env 4 five_members) (sample_daemon 4) (-1) < 0 ∧
    do_domain_members (sample_env 4 five_members) (sample_daemon 4) 2 (-1) = none ∧
    process_connection (sample_env 4 five_members) (sample_daemon 4) 2
      [ReadAnswer.data (sample_encode ⟨254, 65536, 7, 20, -1⟩)] = none := by
  decide

/-- C4, failing input: the client connection in slot 2 has descriptor 6.
`do_dump` writes its reply to descriptor 6. `do_node_info`, `do_domain_info`
and `do_domain_members` pass the descriptor 6 to `do_reply` as the slot index,
so their reply goes to `client[6].fd`, the descriptor `-1` of a free slot; with
descriptor 40 in a table of 32 slots the index is outside the table. -/
theorem reply_descriptor_mismatch :
    client_at (sample_daemon 4) (2 : Nat) =
      some ⟨6, some Callback.process_connection, some Callback.client_dead⟩ ∧
    (do_dump (sample_env 4 five_members) (sample_daemon 4) 2).map
      (fun r => write_fds r.2) = some [6, 6] ∧
    (do_node_info (sample_env 4 five_members) (sample_daemon 4) 2 1).map
      (fun r => write_fds r.2) = some [-1] ∧
    (do_domain_info (sample_env 4 five_members) (sample_daemon 4) 2).map
      (fun r => write_fds r.2) = some [-1] ∧
    (do_domain_members (sample_env 4 five_members) (sample_daemon 4) 2 5).map
      (fun r => write_fds r.2) = some [-1] ∧
    client_at far_daemon (2 : Nat) =
      some ⟨40, some Callback.process_connection, some Callback.client_dead⟩ ∧
    far_daemon.client_size = 32 ∧
    do_node_info (sample_env 4 five_members) far_daemon 2 1 = none ∧
    do_domain_info (sample_env 4 five_members) far_daemon 2 = none ∧
    do_domain_members (sample_env 4 five_members) far_daemon 2 5 = none := by
  decide

/-! ## `process_connection` -/

theorem land_major (v : Nat) : v &&& 0xFFFF0000 = (v / 65536 % 65536) * 65536 := by
  have hm : (0xFFFF0000 : Nat) = (2 ^ 16 - 1) <<< 16 := by decide
  have hr : (v / 65536 % 65536) * 65536 = ((v >>> 16) % 2 ^ 16) <<< 16 := by
    rw [Nat.shiftLeft_eq, Nat.shiftRight_eq_div_pow]
    norm_num
  rw [hm, hr]
  apply Nat.eq_of_testBit_eq
  intro i
  simp only [Nat.testBit_and, Nat.testBit_shiftLeft, Nat.testBit_two_pow_sub_one,
    Nat.testBit_mod_two_pow, Nat.testBit_shiftRight]
  by_cases hi : 16 ≤ i
  · have : 16 + (i - 16) = i := by omega
    rw [this]
    cases Nat.testBit v i <;> simp
  · simp [hi]

theorem major_ne_iff (v w : Nat) :
    (v &&& 0xFFFF0000) ≠ (w &&& 0xFFFF0000) ↔ v / 65536 % 65536 ≠ w / 65536 % 65536 := by
  rw [land_major, land_major]
  constructor
  · intro h e; exact h (by rw [e])
  · intro h e; exact h (Nat.eq_of_mul_eq_mul_right (by decide) e)

theorem client_dead_slot (st : Daemon) (ci : Nat) (c : Client)
    (hc : client_at st ci = some c) :
    (client_dead st ci).2 = [Event.close c.fd] ∧
    client_at (client_dead st ci).1 ci = some ⟨-1, none, c.deadfn⟩ := by
  unfold client_at at hc
  simp only [Int.toNat_ofNat] at hc
  rw [if_neg (by omega)] at hc
  cases hcl : st.client with
  | none => rw [hcl] at hc; simp at hc
  | some cl =>
    rw [hcl, Option.getD_some] at hc
    have hlt : ci < cl.length := by
      by_contra hge
      rw [List.getElem?_eq_none (by omega)] at hc
      cases hc
    have hget : cl.getD ci fresh_client = c := by
      rw [List.getD_eq_getElem?_getD, hc]; rfl
    constructor
    · unfold client_dead
      simp only [hcl, Option.getD_some, hget]
    · unfold client_dead client_at
      simp only [hcl, Option.map_some', Option.getD_some, Int.toNat_ofNat, hget]
      rw [if_neg (by omega), List.getElem?_set_self (by omega)]

/-- C3: for a header that was read in full, on the connection in slot `ci`:
when its magic differs from `FENCED_MAGIC`, or its magic is right and the high
16 bits of its version differ from those of `FENCED_VERSION`,
`process_connection` does nothing but tear the slot down: the only event is the
`close` of the connection's descriptor (no write, no call of a handler's
procedure), the state is the one `client_dead` leaves, with `client[ci].fd = -1`
and the domains and the debug buffer untouched. And two headers, each read in
full with the same answers left for later reads, that differ only in the low 16
bits of the version give the same result of `process_connection`. -/
theorem process_connection_header_check (env : Env) (st : Daemon) (ci : Nat) (c : Client)
    (hc : client_at st ci = some c) :
    (∀ script : List ReadAnswer,
      (do_read script (List.replicate env.sizeof_fenced_header 0)
        env.sizeof_fenced_header).result = some 0 →
      ((env.decode_header (do_read script (List.replicate env.sizeof_fenced_header 0)
          env.sizeof_fenced_header).buf).magic ≠ env.FENCED_MAGIC ∨
       ((env.decode_header (do_read script (List.replicate env.sizeof_fenced_header 0)
          env.sizeof_fenced_header).buf).magic = env.FENCED_MAGIC ∧
        (env.decode_header (do_read script (List.replicate env.sizeof_fenced_header 0)
          env.sizeof_fenced_header).buf).version / 65536 % 65536 ≠
          env.FENCED_VERSION / 65536 % 65536)) →
      process_connection env st ci script =
        some ((client_dead st ci).1, [Event.close c.fd]) ∧
      client_at (client_dead st ci).1 ci = some ⟨-1, none, c.deadfn⟩ ∧
      (client_dead st ci).1.domains = st.domains ∧
      (client_dead st ci).1.dump_buf = st.dump_buf ∧
      (client_dead st ci).1.dump_point = st.dump_point) ∧
    (∀ script1 script2 : List ReadAnswer,
      (do_read script1 (List.replicate env.sizeof_fenced_header 0)
        env.sizeof_fenced_header).result = some 0 →
      (do_read script2 (List.replicate env.sizeof_fenced_header 0)
        env.sizeof_fenced_header).result = some 0 →
      (do_read script1 (List.replicate env.sizeof_fenced_header 0)
        env.sizeof_fenced_header).rest =
      (do_read script2 (List.replicate env.sizeof_fenced_header 0)
        env.sizeof_fenced_header).rest →
      env.decode_header (do_read script2 (List.replicate env.sizeof_fenced_header 0)
        env.sizeof_fenced_header).buf =
        { env.decode_header (do_read script1 (List.replicate env.sizeof_fenced_header 0)
            env.sizeof_fenced_header).buf with
          version := (env.decode_header (do_read script2
            (List.replicate env.sizeof_fenced_header 0) env.sizeof_fenced_header).buf).version } →
      (env.decode_header (do_read script1 (List.replicate env.sizeof_fenced_header 0)
        env.sizeof_fenced_header).buf).version / 65536 =
      (env.decode_header (do_read script2 (List.replicate env.sizeof_fenced_header 0)
        env.sizeof_fenced_header).buf).version / 65536 →
      process_connection env st ci script1 = process_connection env st ci script2) := by
  obtain ⟨hclose, hslot⟩ := client_dead_slot st ci c hc
  constructor
  · intro script hread hbad
    refine ⟨?_, hslot, rfl, rfl, rfl⟩
    unfold process_connection
    simp only [hc, hread]
    rw [if_neg (by omega)]
    rcases hbad with hm | ⟨hm, hv⟩
    · rw [if_pos hm]
      simp [hclose]
    · rw [if_neg (by simpa using hm), if_pos ((major_ne_iff _ _).mpr hv)]
      simp [hclose]
  · intro script1 script2 h1 h2 hrest hdec hver
    unfold process_connection
    simp only [hc, h1, h2, hrest]
    generalize env.decode_header (do_read script1 (List.replicate env.sizeof_fenced_header 0)
      env.sizeof_fenced_header).buf = a at hdec hver ⊢
    generalize env.decode_header (do_read script2 (List.replicate env.sizeof_fenced_header 0)
      env.sizeof_fenced_header).buf = b at hdec hver ⊢
    have hmask : (a.version &&& 0xFFFF0000) = (b.version &&& 0xFFFF0000) := by
      rw [land_major, land_major, hver]
    have hmag : b.magic = a.magic := by rw [hdec]
    have hlen : b.len = a.len := by rw [hdec]
    have hdis : ∀ extra, dispatch env st ci b extra = dispatch env st ci a extra := by
      intro extra; rw [hdec]; rfl
    simp only [hmask, hmag, hlen, hdis]

theorem process_connection_header_check_witness :
    client_at (sample_daemon 4) (2 : Nat) =
      some ⟨6, some Callback.process_connection, some Callback.client_dead⟩ ∧
    (do_read [ReadAnswer.data (sample_encode ⟨254, 131072, 5, 20, 3⟩)] (List.replicate (sample_env 4 five_members).sizeof_fenced_header 0)
        (sample_env 4 five_members).sizeof_fenced_header).result = some 0 ∧
    (((sample_env 4 five_members).decode_header (do_read [ReadAnswer.data (sample_encode ⟨254, 131072, 5, 20, 3⟩)] (List.replicate (sample_env 4 five_members).sizeof_fenced_header 0)
        (sample_env 4 five_members).sizeof_fenced_header).buf).magic ≠ (sample_env 4 five_members).FENCED_MAGIC ∨
     (((sample_env 4 five_members).decode_header (do_read [ReadAnswer.data (sample_encode ⟨254, 131072, 5, 20, 3⟩)] (List.replicate (sample_env 4 five_members).sizeof_fenced_header 0)
        (sample_env 4 five_members).sizeof_fenced_header).buf).magic = (sample_env 4 five_members).FENCED_MAGIC ∧
      ((sample_env 4 five_members).decode_header (do_read [ReadAnswer.data (sample_encode ⟨254, 131072, 5, 20, 3⟩)] (List.replicate (sample_env 4 five_members).sizeof_fenced_header 0)
        (sample_env 4 five_members).sizeof_fenced_header).buf).version / 65536 % 65536 ≠
        (sample_env 4 five_members).FENCED_VERSION / 65536 % 65536)) ∧
    (process_connection (sample_env 4 five_members) (sample_daemon 4) 2
        [ReadAnswer.data (sample_encode ⟨254, 131072, 5, 20, 3⟩)] =
        some ((client_dead (sample_daemon 4) 2).1, [Event.close 6]) ∧
      client_at (client_dead (sample_daemon 4) 2).1 (2 : Nat) =
        some ⟨-1, none, some Callback.client_dead⟩ ∧
      (client_dead (sample_daemon 4) 2).1.domains = (sample_daemon 4).domains ∧
      (client_dead (sample_daemon 4) 2).1.dump_buf = (sample_daemon 4).dump_buf ∧
      (client_dead (sample_daemon 4) 2).1.dump_point = (sample_daemon 4).dump_point) ∧
    process_connection (sample_env 4 five_members) (sample_daemon 4) 2
        [ReadAnswer.data (sample_encode ⟨254, 65536, 5, 20, 3⟩)] =
      process_connection (sample_env 4 five_members) (sample_daemon 4) 2
        [ReadAnswer.data (sample_encode ⟨254, 65543, 5, 20, 3⟩)] :=
  ⟨by decide, by decide, by decide,
    (process_connection_header_check (sample_env 4 five_members) (sample_daemon 4) 2
      ⟨6, some Callback.process_connection, some Callback.client_dead⟩ (by decide)).1
      [ReadAnswer.data (sample_encode ⟨254, 131072, 5, 20, 3⟩)] (by decide) (by decide),
    (process_connection_header_check (sample_env 4 five_members) (sample_daemon 4) 2
      ⟨6, some Callback.process_connection, some Callback.client_dead⟩ (by decide)).2
      [ReadAnswer.data (sample_encode ⟨254, 65536, 5, 20, 3⟩)]
      [ReadAnswer.data (sample_encode ⟨254, 65543, 5, 20, 3⟩)]
      (by decide) (by decide) (by decide) (by decide) (by decide)⟩

end Fenced
